import Mathlib

set_option maxRecDepth 8000

/-!
Verification of the Smart Access facilities-booking core (`src/main.py`,
`src/schemas.py`) against its natural-language specification.

The Python code is shallowly embedded: the booking store (a MongoDB
collection) becomes a `List Booking`; `datetime` values become their
absolute minute on the proleptic Gregorian timeline (Python `datetime`
comparison and minute-granularity `timedelta` arithmetic agree with `Nat`
comparison and addition under this encoding); `date` values become their
proleptic Gregorian ordinal (as Python `date.toordinal`); fallible code
returns `Option`/`Except`, with `Err.uncaught` standing for an unhandled
Python exception (e.g. `ValueError` from `int(...)` or `datetime(...)`).
Python `int(x)` is modelled on its nonnegative-decimal fragment (a
nonempty all-digit string); signs, whitespace and underscores never occur
in the inputs any claim is about.
-/

/-- Splits a list of characters at every occurrence of `c`, keeping empty
pieces, as Python `str.split(c)` does for a one-character separator. -/
def splitOnCharAux (c : Char) (acc : List Char) : List Char → List (List Char)
  | [] => [acc.reverse]
  | x :: xs =>
    if x = c then acc.reverse :: splitOnCharAux c [] xs
    else splitOnCharAux c (x :: acc) xs

/-- Model of Python `str.split(sep)` for a single-character separator. -/
def splitOnChar (c : Char) (l : List Char) : List (List Char) :=
  splitOnCharAux c [] l

/-- Value of a decimal digit character, `none` on a non-digit. -/
def digitVal (c : Char) : Option Nat :=
  if '0' ≤ c ∧ c ≤ '9' then some (c.toNat - '0'.toNat) else none

def parseDigitsAux : Nat → List Char → Option Nat
  | acc, [] => some acc
  | acc, c :: rest =>
    match digitVal c with
    | some v => parseDigitsAux (10 * acc + v) rest
    | none => none

/-- Model of Python `int(x)` on the nonnegative-decimal fragment: a
nonempty string of decimal digits parses to its value, anything else is
an unhandled `ValueError` (`none`). -/
def parseDigits : List Char → Option Nat
  | [] => none
  | c :: rest => parseDigitsAux 0 (c :: rest)

/-- Gregorian leap-year test, as Python's `calendar`/`datetime` use. -/
def isLeap (y : Nat) : Bool := y % 4 == 0 && (y % 100 != 0 || y % 400 == 0)

def daysInMonth (y mo : Nat) : Nat :=
  if mo = 2 then (if isLeap y then 29 else 28)
  else if mo = 4 ∨ mo = 6 ∨ mo = 9 ∨ mo = 11 then 30
  else 31

def daysBeforeMonth (y mo : Nat) : Nat :=
  (List.range (mo - 1)).foldl (fun acc k => acc + daysInMonth y (k + 1)) 0

/-- Proleptic Gregorian ordinal of a valid date, as Python
`date(y,mo,d).toordinal()` (so `dateOrdinal 1 1 1 = 1`). -/
def dateOrdinal (y mo d : Nat) : Nat :=
  365 * (y - 1) + (y - 1) / 4 - (y - 1) / 100 + (y - 1) / 400
    + daysBeforeMonth y mo + d

-- sanity: Python date(2000,1,1).toordinal() == 730120
example : dateOrdinal 2000 1 1 = 730120 := by decide

/-- Lexicographic comparison of character lists by code point, as Python
compares `str` values. -/
def strLtb : List Char → List Char → Bool
  | _, [] => false
  | [], _ :: _ => true
  | a :: as, b :: bs =>
    if a.toNat < b.toNat then true
    else if b.toNat < a.toNat then false
    else strLtb as bs

/-- Python `s < t` on strings. -/
def pyStrLt (s t : String) : Bool := strLtb s.data t.data

/-- Python `s >= t` on strings (total order, so the negation of `<`). -/
def pyStrGe (s t : String) : Bool := !(pyStrLt s t)

/-- Model of `main.to_local_dt(date_str, time_str)`: splits the date on
`-` and the time on `:`, converts the pieces with `int(...)`, and builds
`datetime(y, m, d, hh, mm)`.  The resulting instant is encoded as its
absolute minute `toordinal * 1440 + hh * 60 + mm`; `none` models the
unhandled `ValueError` raised by `int(...)` on a non-numeric piece, by
tuple unpacking on the wrong number of pieces, or by the `datetime`
constructor on out-of-range fields. -/
def to_local_dt (date_str time_str : String) : Option Nat :=
  match splitOnChar '-' date_str.data with
  | [ys, ms, ds] =>
    match splitOnChar ':' time_str.data with
    | [hs, mins] => do
      let y ← parseDigits ys
      let mo ← parseDigits ms
      let d ← parseDigits ds
      let hh ← parseDigits hs
      let mm ← parseDigits mins
      if 1 ≤ y ∧ y ≤ 9999 ∧ 1 ≤ mo ∧ mo ≤ 12 ∧ 1 ≤ d ∧ d ≤ daysInMonth y mo
          ∧ hh < 24 ∧ mm < 60 then
        some (dateOrdinal y mo d * 1440 + hh * 60 + mm)
      else none
    | _ => none
  | _ => none

/-- Model of `main.overlaps(s1, e1, s2, e2)`: anchors the four time
strings on the dummy date `2000-01-01` and tests `a1 < b2 and a2 < b1`.
`none` models the unhandled exception propagating out of `to_local_dt`. -/
def overlaps (s1 e1 s2 e2 : String) : Option Bool := do
  let a1 ← to_local_dt "2000-01-01" s1
  let b1 ← to_local_dt "2000-01-01" e1
  let a2 ← to_local_dt "2000-01-01" s2
  let b2 ← to_local_dt "2000-01-01" e2
  return (decide (a1 < b2) && decide (a2 < b1))

/-- Model of `datetime.strptime(s, "%Y-%m-%d").date()` used by the sweep,
returning the date's proleptic Gregorian ordinal.  (Python `strptime`'s
limits on digit-group width and its whitespace handling differ from
`int(...)` only on inputs no claim is about.) -/
def strptime_date (s : String) : Option Nat :=
  match splitOnChar '-' s.data with
  | [ys, ms, ds] => do
    let y ← parseDigits ys
    let mo ← parseDigits ms
    let d ← parseDigits ds
    if 1 ≤ y ∧ y ≤ 9999 ∧ 1 ≤ mo ∧ mo ≤ 12 ∧ 1 ≤ d ∧ d ≤ daysInMonth y mo then
      some (dateOrdinal y mo d)
    else none
  | _ => none

/-- Model of the local helper `minutes(t)` inside `main.availability`:
`h * 60 + m` with no range validation at all. -/
def minutes (t : String) : Option Nat :=
  match splitOnChar ':' t.data with
  | [hs, ms] => do
    let h ← parseDigits hs
    let m ← parseDigits ms
    some (h * 60 + m)
  | _ => none

/-- The `booking` collection document, following `schemas.Booking`.
`id` models the MongoDB `_id` (opaque there, a `Nat` here);
`facility_id`, a denormalized copy of the facility's `_id` that no core
logic ever reads, is omitted.  `checked_in_at` is an absolute instant
(`datetime.utcnow()`), modelled as a `Nat`. -/
structure Booking where
  id : Nat
  facility_code : String
  user_name : String
  user_email : String
  purpose : Option String := none
  date : String
  start_time : String
  end_time : String
  status : String := "pending"
  access_code : Option String := none
  checked_in_at : Option Nat := none
deriving DecidableEq, Repr

/-- Request body of `POST /api/bookings` (`main.CreateBooking`). -/
structure CreateBooking where
  facility_code : String
  user_name : String
  user_email : String
  purpose : Option String := none
  date : String
  start_time : String
  end_time : String
deriving DecidableEq, Repr

/-- Outcome of a Python endpoint: `http` models a raised `HTTPException`
with its status code and detail string; `uncaught` models any other
exception escaping the handler. -/
inductive Err where
  | http (status : Nat) (detail : String)
  | uncaught
deriving DecidableEq, Repr

/-- Decidable equality for `Except` results, so concrete runs can be
checked by `decide`. -/
instance {e a : Type} [DecidableEq e] [DecidableEq a] : DecidableEq (Except e a) :=
  fun x y =>
    match x, y with
    | .error u, .error v =>
      if h : u = v then .isTrue (congrArg Except.error h)
      else .isFalse (fun hc => h (Except.error.inj hc))
    | .error _, .ok _ => .isFalse Except.noConfusion
    | .ok _, .error _ => .isFalse Except.noConfusion
    | .ok u, .ok v =>
      if h : u = v then .isTrue (congrArg Except.ok h)
      else .isFalse (fun hc => h (Except.ok.inj hc))

/-- The status filter `{"$in": ["pending", "approved"]}` used by both the
availability query and the conflict-check query. -/
def isActiveStatus (st : String) : Bool := st == "pending" || st == "approved"

/-- The Mongo filter `{facility_code, date, status: {$in: [pending, approved]}}`
shared by `availability` and `create_booking`. -/
def matchesKey (fc ds : String) (b : Booking) : Bool :=
  b.facility_code == fc && b.date == ds && isActiveStatus b.status

/-- The conflict loop of `main.create_booking`: for each existing booking
(in collection order), test `overlaps` and raise 409 on the first hit;
an exception inside `overlaps` propagates. -/
def checkConflicts (st et : String) : List Booking → Except Err Unit
  | [] => .ok ()
  | b :: rest =>
    match overlaps st et b.start_time b.end_time with
    | none => .error .uncaught
    | some true => .error (.http 409 "Time slot not available")
    | some false => checkConflicts st et rest

/-- The document `main.create_booking` inserts: the payload's fields with
status `pending`, no access code and no check-in stamp. -/
def newBooking (nextId : Nat) (p : CreateBooking) : Booking :=
  { id := nextId, facility_code := p.facility_code, user_name := p.user_name,
    user_email := p.user_email, purpose := p.purpose, date := p.date,
    start_time := p.start_time, end_time := p.end_time, status := "pending" }

/-- Model of `main.create_booking`.  `facs` is the set of facility codes
present in the `facility` collection, `store` the `booking` collection in
insertion order, `nextId` the id the store will assign to the next
insert.  Returns the new store and the new booking's id. -/
def create_booking (facs : List String) (store : List Booking) (nextId : Nat)
    (p : CreateBooking) : Except Err (List Booking × Nat) :=
  if ¬ facs.contains p.facility_code then
    .error (.http 404 "Facility not found")
  else if pyStrGe p.start_time p.end_time then
    .error (.http 400 "Invalid time range")
  else
    match checkConflicts p.start_time p.end_time
        (store.filter (matchesKey p.facility_code p.date)) with
    | .error e => .error e
    | .ok _ => .ok (store ++ [newBooking nextId p], nextId)

inductive AdminAct where
  | approve
  | reject
deriving DecidableEq, Repr

/-- Model of `main.admin_action`.  `genCode` is the injected value of
`os.urandom(3).hex().upper()` (its randomness is external).  The update
is by `_id`, with no guard on the booking's current status. -/
def admin_action (store : List Booking) (i : Nat) (a : AdminAct)
    (genCode : String) : Except Err (List Booking) :=
  match store.find? (fun b => b.id == i) with
  | none => .error (.http 404 "Not found")
  | some _ =>
    match a with
    | .approve =>
      .ok (store.map (fun b =>
        if b.id == i then { b with status := "approved", access_code := some genCode }
        else b))
    | .reject =>
      .ok (store.map (fun b =>
        if b.id == i then { b with status := "rejected" } else b))

/-- Model of `main.check_in`.  `now` is the injected `datetime.utcnow()`
instant.  Guards: booking exists, status is `approved`, submitted code
equals the stored one; there is no guard on `checked_in_at` and no
temporal guard, and the update unconditionally overwrites
`checked_in_at` with `now`. -/
def check_in (store : List Booking) (i : Nat) (code : String) (now : Nat) :
    Except Err (List Booking) :=
  match store.find? (fun b => b.id == i) with
  | none => .error (.http 404 "Not found")
  | some b =>
    if b.status ≠ "approved" then .error (.http 400 "Booking not approved")
    else if b.access_code ≠ some code then .error (.http 403 "Invalid access code")
    else .ok (store.map (fun x =>
      if x.id == i then { x with checked_in_at := some now } else x))

/-- Model of `main.sweep_noshows`.  `grace` is `NO_SHOW_GRACE_MIN`
(default 15), `todayOrd` the ordinal of `datetime.utcnow().date()`,
`nowMin` the absolute minute of the second `datetime.utcnow()` call.
Bookings are processed in collection order; on a parse failure
(`strptime` or `to_local_dt` raising) the Python loop dies mid-scan, so
the error branch carries the partially updated store. -/
def sweep_noshows (grace todayOrd nowMin : Nat) :
    List Booking → Except (List Booking) (List Booking × Nat)
  | [] => .ok ([], 0)
  | b :: rest =>
    if b.status = "approved" ∧ b.checked_in_at = none then
      match strptime_date b.date, to_local_dt b.date b.start_time with
      | some bd, some startMin =>
        let b' := if bd ≤ todayOrd ∧ startMin + grace ≤ nowMin then
            { b with status := "no_show" } else b
        let inc := if bd ≤ todayOrd ∧ startMin + grace ≤ nowMin then 1 else 0
        match sweep_noshows grace todayOrd nowMin rest with
        | .ok (rest', c) => .ok (b' :: rest', inc + c)
        | .error rest' => .error (b' :: rest')
      | _, _ => .error (b :: rest)
    else
      match sweep_noshows grace todayOrd nowMin rest with
      | .ok (rest', c) => .ok (b :: rest', c)
      | .error rest' => .error (b :: rest')

/-- Selection-plus-time predicate of the sweep: the booking is approved,
never checked in, its date parses and is `<= today`, and `now` is past
the start instant plus the grace period. -/
def noShowEligible (grace todayOrd nowMin : Nat) (b : Booking) : Bool :=
  b.status == "approved" && b.checked_in_at == none &&
    (match strptime_date b.date, to_local_dt b.date b.start_time with
     | some bd, some startMin => decide (bd ≤ todayOrd ∧ startMin + grace ≤ nowMin)
     | _, _ => false)

/-- One pass of the inner marking loop of `main.availability`: sets
`covered[i] = 1` for `i in range(max(0, s), max(0, e))` (the redundant
`0 <= i < len(covered)` guard is inherent here since only existing cells
are rewritten).  `idx` is the index of the head cell. -/
def markRange (s e : Int) : Nat → List Nat → List Nat
  | _, [] => []
  | idx, v :: rest =>
    (if s ≤ (idx : Int) ∧ (idx : Int) < e then 1 else v) :: markRange s e (idx + 1) rest

/-- The outer marking loop of `main.availability`: for each booking,
clip `[minutes(start), minutes(end))` to the window `[480, 1320)`,
shift by the window start and mark.  `none` models the unhandled
exception from `minutes(...)` on an unparseable time. -/
def buildCovered : List Nat → List Booking → Option (List Nat)
  | cov, [] => some cov
  | cov, b :: rest =>
    match minutes b.start_time, minutes b.end_time with
    | some ms, some me => buildCovered
        (markRange ((max ms 480 : Int) - 480) ((min me 1320 : Int) - 480) 0 cov) rest
    | _, _ => none

/-- Model of `main.availability` for an existing facility: the occupied
intervals (start, end, status) of the active bookings for the key, and
the `fully_occupied` flag computed from the per-minute bitmap over
`[08:00, 22:00)`.  A missing facility gives 404; an unparseable time in
a matching booking gives an unhandled error. -/
def availability (facs : List String) (store : List Booking)
    (facility_code date_str : String) :
    Except Err (List (String × String × String) × Bool) :=
  if ¬ facs.contains facility_code then
    .error (.http 404 "Facility not found")
  else
    let bookings := store.filter (matchesKey facility_code date_str)
    let intervals := bookings.map (fun b => (b.start_time, b.end_time, b.status))
    match buildCovered (List.replicate 840 0) bookings with
    | none => .error .uncaught
    | some covered =>
      .ok (intervals, !covered.isEmpty && covered.all (fun v => v != 0))

/-- The minute at index `m` of the window (i.e. absolute minute
`m + 480`) falls inside booking `b`'s interval clipped to the window —
the predicate the bitmap marking realizes cell by cell. -/
def coversMinute (b : Booking) (m : Nat) : Bool :=
  match minutes b.start_time, minutes b.end_time with
  | some ms, some me =>
    decide (((max ms 480 : Int) - 480) ≤ (m : Int) ∧ (m : Int) < ((min me 1320 : Int) - 480))
  | _, _ => false

/-- Whole-system state: the `booking` collection plus the id the store
will assign next.  The `facility` collection is a fixed parameter. -/
structure SysState where
  store : List Booking
  nextId : Nat
deriving DecidableEq, Repr

def initState : SysState := ⟨[], 0⟩

/-- One externally triggered operation, with all nondeterminism (clock
readings, generated access codes) injected as parameters. -/
inductive Op where
  | create (p : CreateBooking)
  | admin (i : Nat) (a : AdminAct) (genCode : String)
  | checkin (i : Nat) (code : String) (now : Nat)
  | sweep (grace todayOrd nowMin : Nat)
deriving DecidableEq, Repr

/-- Effect of one operation on the system state.  An `HTTPException` is
raised before any write, so an error leaves the store unchanged; a sweep
that dies mid-scan leaves its partial updates in place. -/
def stepOp (facs : List String) (s : SysState) : Op → SysState
  | .create p =>
    match create_booking facs s.store s.nextId p with
    | .ok (st, _) => ⟨st, s.nextId + 1⟩
    | .error _ => s
  | .admin i a g =>
    match admin_action s.store i a g with
    | .ok st => ⟨st, s.nextId⟩
    | .error _ => s
  | .checkin i c n =>
    match check_in s.store i c n with
    | .ok st => ⟨st, s.nextId⟩
    | .error _ => s
  | .sweep g t n =>
    match sweep_noshows g t n s.store with
    | .ok (st, _) => ⟨st, s.nextId⟩
    | .error st => ⟨st, s.nextId⟩

def runOps (facs : List String) : SysState → List Op → SysState
  | s, [] => s
  | s, op :: rest => runOps facs (stepOp facs s op) rest

/-- Invariant I2 as a decidable scan: no two distinct active bookings
for the same facility and date whose intervals overlap under the code's
own `overlaps` predicate. -/
def conflictFreeB (store : List Booking) : Bool :=
  store.all (fun b1 => store.all (fun b2 =>
    !(b1.id != b2.id && isActiveStatus b1.status && isActiveStatus b2.status
      && b1.facility_code == b2.facility_code && b1.date == b2.date
      && overlaps b1.start_time b1.end_time b2.start_time b2.end_time == some true)))

/-- Chronological minute-of-day of a well-formed `HH:MM` string
(exactly two digits, a colon, two digits, hour < 24, minute < 60);
`none` when the string is not of that shape. -/
def hhmmVal (s : String) : Option Nat :=
  match s.data with
  | [a, b, k, c, d] =>
    if k = ':' then
      match digitVal a, digitVal b, digitVal c, digitVal d with
      | some va, some vb, some vc, some vd =>
        if 10 * va + vb < 24 ∧ 10 * vc + vd < 60 then
          some ((10 * va + vb) * 60 + (10 * vc + vd))
        else none
      | _, _, _, _ => none
    else none
  | _ => none

lemma digitVal_ne_colon {ch : Char} {v : Nat} (h : digitVal ch = some v) :
    ¬ ch = ':' := by
  intro heq
  rw [heq, show digitVal ':' = none from by decide] at h
  exact Option.noConfusion h

lemma splitOnChar_colon_hhmm {a b c d : Char}
    (ha : ¬ a = ':') (hb : ¬ b = ':') (hc : ¬ c = ':') (hd : ¬ d = ':') :
    splitOnChar ':' [a, b, ':', c, d] = [[a, b], [c, d]] := by
  simp [splitOnChar, splitOnCharAux, ha, hb, hc, hd]

lemma parseDigits_pair {x y : Char} {vx vy : Nat}
    (hx : digitVal x = some vx) (hy : digitVal y = some vy) :
    parseDigits [x, y] = some (10 * vx + vy) := by
  simp [parseDigits, parseDigitsAux, hx, hy]

/-- On a well-formed `HH:MM` string, `to_local_dt` anchored at the dummy
date `2000-01-01` succeeds and returns the dummy date's minute offset
plus the chronological minute-of-day. -/
lemma to_local_dt_hhmm {s : String} {v : Nat} (h : hhmmVal s = some v) :
    to_local_dt "2000-01-01" s = some (730120 * 1440 + v) := by
  rw [hhmmVal] at h
  split at h
  case h_2 => exact absurd h (by simp)
  case h_1 a b k c d hsd =>
    split at h
    case isFalse => exact absurd h (by simp)
    case isTrue hk =>
      subst hk
      cases ha : digitVal a with
      | none => rw [ha] at h; exact absurd h (by simp)
      | some va =>
      cases hb : digitVal b with
      | none => rw [ha, hb] at h; exact absurd h (by simp)
      | some vb =>
      cases hc : digitVal c with
      | none => rw [ha, hb, hc] at h; exact absurd h (by simp)
      | some vc =>
      cases hd : digitVal d with
      | none => rw [ha, hb, hc, hd] at h; exact absurd h (by simp)
      | some vd =>
        rw [ha, hb, hc, hd] at h
        dsimp only at h
        by_cases hrange : 10 * va + vb < 24 ∧ 10 * vc + vd < 60
        case neg => rw [if_neg hrange] at h; exact Option.noConfusion h
        case pos =>
          rw [if_pos hrange] at h
          have hv : (10 * va + vb) * 60 + (10 * vc + vd) = v := by
            simpa using h
          rw [to_local_dt, hsd]
          rw [show splitOnChar '-' ("2000-01-01" : String).data
              = [['2','0','0','0'], ['0','1'], ['0','1']] from by decide]
          rw [splitOnChar_colon_hhmm (digitVal_ne_colon ha) (digitVal_ne_colon hb)
              (digitVal_ne_colon hc) (digitVal_ne_colon hd)]
          simp only [show parseDigits ['2','0','0','0'] = some 2000 from by decide,
            show parseDigits ['0','1'] = some 1 from by decide,
            parseDigits_pair ha hb, parseDigits_pair hc hd, Option.bind_eq_bind,
            Option.some_bind]
          rw [if_pos]
          · rw [show dateOrdinal 2000 1 1 = 730120 from by decide]
            exact congrArg some (by omega)
          · refine ⟨by norm_num, by norm_num, by norm_num, by norm_num, by norm_num,
              by norm_num [daysInMonth, isLeap], hrange.1, hrange.2⟩

/-- Characterization of `overlaps` on well-formed `HH:MM` strings: the
half-open intervals of chronological minutes intersect. -/
lemma overlaps_hhmm {s1 e1 s2 e2 : String} {m1 n1 m2 n2 : Nat}
    (h1 : hhmmVal s1 = some m1) (h2 : hhmmVal e1 = some n1)
    (h3 : hhmmVal s2 = some m2) (h4 : hhmmVal e2 = some n2) :
    overlaps s1 e1 s2 e2 = some (decide (m1 < n2) && decide (m2 < n1)) := by
  rw [overlaps, to_local_dt_hhmm h1, to_local_dt_hhmm h2, to_local_dt_hhmm h3,
    to_local_dt_hhmm h4]
  have ha : (730120 * 1440 + m1 < 730120 * 1440 + n2) ↔ m1 < n2 := by omega
  have hb : (730120 * 1440 + m2 < 730120 * 1440 + n1) ↔ m2 < n1 := by omega
  simp [ha, hb]

/-- `overlaps` detects an overlap symmetrically, on all inputs (defined
or not). -/
lemma overlaps_comm_true (s1 e1 s2 e2 : String) :
    overlaps s1 e1 s2 e2 = some true ↔ overlaps s2 e2 s1 e1 = some true := by
  rw [overlaps, overlaps]
  cases hA1 : to_local_dt "2000-01-01" s1 <;>
    cases hB1 : to_local_dt "2000-01-01" e1 <;>
      cases hA2 : to_local_dt "2000-01-01" s2 <;>
        cases hB2 : to_local_dt "2000-01-01" e2 <;>
          simp [Bool.and_comm]

/-- The conflict loop accepts exactly when `overlaps` returns a defined
`false` against every existing booking. -/
lemma checkConflicts_ok_iff (st et : String) (l : List Booking) :
    checkConflicts st et l = .ok () ↔
      ∀ b ∈ l, overlaps st et b.start_time b.end_time = some false := by
  induction l with
  | nil => simp [checkConflicts]
  | cons b rest ih =>
    rw [checkConflicts]
    cases hov : overlaps st et b.start_time b.end_time with
    | none => simp [hov]
    | some t => cases t <;> simp [hov, ih]

/-- With `overlaps` defined against every existing booking, the conflict
loop either accepts or raises exactly the 409 conflict error. -/
lemma checkConflicts_cases (st et : String) (l : List Booking)
    (hdef : ∀ b ∈ l, (overlaps st et b.start_time b.end_time).isSome) :
    checkConflicts st et l = .ok () ∨
      checkConflicts st et l = .error (.http 409 "Time slot not available") := by
  induction l with
  | nil => left; rfl
  | cons b rest ih =>
    rw [checkConflicts]
    cases hov : overlaps st et b.start_time b.end_time with
    | none =>
      have := hdef b (by simp)
      rw [hov] at this
      simp at this
    | some t =>
      cases t with
      | true => right; rfl
      | false => exact ih (fun x hx => hdef x (by simp [hx]))

/-- When `overlaps` is defined against every existing booking, the
conflict loop raises 409 exactly when some booking overlaps. -/
lemma checkConflicts_conflict_iff (st et : String) (l : List Booking)
    (hdef : ∀ b ∈ l, (overlaps st et b.start_time b.end_time).isSome) :
    checkConflicts st et l = .error (.http 409 "Time slot not available") ↔
      ∃ b ∈ l, overlaps st et b.start_time b.end_time = some true := by
  induction l with
  | nil => simp [checkConflicts]
  | cons b rest ih =>
    rw [checkConflicts]
    cases hov : overlaps st et b.start_time b.end_time with
    | none =>
      have := hdef b (by simp)
      rw [hov] at this
      simp at this
    | some t =>
      cases t with
      | true => simp [hov]
      | false =>
        have ih' := ih (fun x hx => hdef x (by simp [hx]))
        simp [hov, ih']



/-! ## Claim theorems -/

/-- C3: for all valid `HH:MM` time strings, `overlaps` returns true iff
`s1 < e2` and `s2 < e1` chronologically (half-open intervals); it is
symmetric, and adjacent intervals (one ending exactly when the other
starts) do not overlap. -/
theorem overlaps_spec_c3 (s1 e1 s2 e2 : String) (m1 n1 m2 n2 : Nat)
    (h1 : hhmmVal s1 = some m1) (h2 : hhmmVal e1 = some n1)
    (h3 : hhmmVal s2 = some m2) (h4 : hhmmVal e2 = some n2) :
    overlaps s1 e1 s2 e2 = some (decide (m1 < n2) && decide (m2 < n1))
      ∧ overlaps s1 e1 s2 e2 = overlaps s2 e2 s1 e1
      ∧ (n1 = m2 → overlaps s1 e1 s2 e2 = some false) := by
  refine ⟨overlaps_hhmm h1 h2 h3 h4, ?_, ?_⟩
  · rw [overlaps_hhmm h1 h2 h3 h4, overlaps_hhmm h3 h4 h1 h2]
    simp [Bool.and_comm]
  · intro hadj
    rw [overlaps_hhmm h1 h2 h3 h4]
    subst hadj
    simp

/-- Witness for C3 at the spec's own examples: `[09:00,10:00)` against
the adjacent `[10:00,11:00)` does not overlap, and against the partial
intersection `[09:30,10:30)` does. -/
theorem overlaps_spec_c3_witness :
    overlaps "09:00" "10:00" "10:00" "11:00" = some false ∧
      overlaps "09:00" "10:00" "09:30" "10:30" = some true := by
  constructor
  · have h := overlaps_spec_c3 "09:00" "10:00" "10:00" "11:00" 540 600 600 660
      (by decide) (by decide) (by decide) (by decide)
    exact h.2.2 rfl
  · have h := overlaps_spec_c3 "09:00" "10:00" "09:30" "10:30" 540 600 570 630
      (by decide) (by decide) (by decide) (by decide)
    rw [h.1]
    decide

/-- Every matching stored booking with well-formed times yields a defined
`overlaps` against a well-formed candidate. -/
lemma overlaps_defined_of_hhmm {st et : String} {sv ev : Nat}
    (hs : hhmmVal st = some sv) (he : hhmmVal et = some ev)
    {b : Booking} (hb : (hhmmVal b.start_time).isSome ∧ (hhmmVal b.end_time).isSome) :
    (overlaps st et b.start_time b.end_time).isSome := by
  obtain ⟨h1, h2⟩ := hb
  obtain ⟨bs, hbs⟩ := Option.isSome_iff_exists.mp h1
  obtain ⟨be, hbe⟩ := Option.isSome_iff_exists.mp h2
  rw [overlaps_hhmm hs he hbs hbe]
  rfl

/-- C2: on an existing facility, `create_booking` raises the validation
error first when `start_time >= end_time` (Python string comparison,
which agrees with chronological order on `HH:MM` strings); otherwise it
raises the 409 conflict error exactly when some stored pending/approved
booking for the same facility and date overlaps the candidate under
`overlaps`; and when neither happens it appends a new booking with
status `pending` (errors leave the store untouched by construction). -/
theorem create_booking_spec (facs : List String) (store : List Booking)
    (nextId : Nat) (p : CreateBooking) (sv ev : Nat)
    (hfac : facs.contains p.facility_code = true)
    (hs : hhmmVal p.start_time = some sv) (he : hhmmVal p.end_time = some ev)
    (hstore : ∀ b ∈ store, matchesKey p.facility_code p.date b = true →
      (hhmmVal b.start_time).isSome ∧ (hhmmVal b.end_time).isSome) :
    (pyStrGe p.start_time p.end_time = true →
      create_booking facs store nextId p = .error (.http 400 "Invalid time range"))
    ∧ (pyStrGe p.start_time p.end_time = false →
        (create_booking facs store nextId p
            = .error (.http 409 "Time slot not available")
          ↔ ∃ b ∈ store, matchesKey p.facility_code p.date b = true ∧
              overlaps p.start_time p.end_time b.start_time b.end_time = some true))
    ∧ (pyStrGe p.start_time p.end_time = false →
        (∀ b ∈ store, matchesKey p.facility_code p.date b = true →
          overlaps p.start_time p.end_time b.start_time b.end_time ≠ some true) →
        create_booking facs store nextId p =
          .ok (store ++ [{ id := nextId, facility_code := p.facility_code,
                           user_name := p.user_name, user_email := p.user_email,
                           purpose := p.purpose, date := p.date,
                           start_time := p.start_time, end_time := p.end_time,
                           status := "pending", access_code := none,
                           checked_in_at := none }], nextId)) := by
  have hdef : ∀ b ∈ store.filter (matchesKey p.facility_code p.date),
      (overlaps p.start_time p.end_time b.start_time b.end_time).isSome := by
    intro b hb
    rw [List.mem_filter] at hb
    exact overlaps_defined_of_hhmm hs he (hstore b hb.1 hb.2)
  have hmem : p.facility_code ∈ facs := by simpa using hfac
  refine ⟨fun hge => ?_, fun hge => ?_, fun hge hnone => ?_⟩
  · simp [create_booking, hmem, hge]
  · rw [show (create_booking facs store nextId p
        = .error (.http 409 "Time slot not available"))
        = (checkConflicts p.start_time p.end_time
            (store.filter (matchesKey p.facility_code p.date))
          = .error (.http 409 "Time slot not available")) from ?_]
    · rw [checkConflicts_conflict_iff _ _ _ hdef]
      constructor
      · rintro ⟨b, hb, hov⟩
        rw [List.mem_filter] at hb
        exact ⟨b, hb.1, hb.2, hov⟩
      · rintro ⟨b, hb, hkey, hov⟩
        exact ⟨b, List.mem_filter.mpr ⟨hb, hkey⟩, hov⟩
    · rcases checkConflicts_cases p.start_time p.end_time
        (store.filter (matchesKey p.facility_code p.date)) hdef with hok | herr
      · simp [create_booking, hmem, hge, hok]
      · simp [create_booking, hmem, hge, herr]
  · have hok : checkConflicts p.start_time p.end_time
        (store.filter (matchesKey p.facility_code p.date)) = .ok () := by
      rcases checkConflicts_cases p.start_time p.end_time
        (store.filter (matchesKey p.facility_code p.date)) hdef with hok | herr
      · exact hok
      · exfalso
        obtain ⟨b, hb, hov⟩ := (checkConflicts_conflict_iff _ _ _ hdef).mp herr
        rw [List.mem_filter] at hb
        exact hnone b hb.1 hb.2 hov
    simp [create_booking, newBooking, hmem, hge, hok]

/-- Witness for C2 at the spec's Scenario A: on facility `MR-1`,
`2024-06-01`, with `09:00-10:00` already pending, a `09:30-10:30`
request fails with the 409 conflict error and an adjacent `10:00-11:00`
request succeeds with status `pending`. -/
theorem create_booking_spec_witness :
    create_booking ["MR-1"]
      [{ id := 0, facility_code := "MR-1", user_name := "u", user_email := "u@x",
         date := "2024-06-01", start_time := "09:00", end_time := "10:00" }] 1
      { facility_code := "MR-1", user_name := "v", user_email := "v@x",
        date := "2024-06-01", start_time := "09:30", end_time := "10:30" }
      = .error (.http 409 "Time slot not available")
    ∧ create_booking ["MR-1"]
      [{ id := 0, facility_code := "MR-1", user_name := "u", user_email := "u@x",
         date := "2024-06-01", start_time := "09:00", end_time := "10:00" }] 1
      { facility_code := "MR-1", user_name := "v", user_email := "v@x",
        date := "2024-06-01", start_time := "10:00", end_time := "11:00" }
      = .ok ([{ id := 0, facility_code := "MR-1", user_name := "u",
                user_email := "u@x", date := "2024-06-01",
                start_time := "09:00", end_time := "10:00" },
              { id := 1, facility_code := "MR-1", user_name := "v",
                user_email := "v@x", purpose := none, date := "2024-06-01",
                start_time := "10:00", end_time := "11:00",
                status := "pending", access_code := none,
                checked_in_at := none }], 1) := by
  constructor
  · have h := create_booking_spec ["MR-1"]
      [{ id := 0, facility_code := "MR-1", user_name := "u", user_email := "u@x",
         date := "2024-06-01", start_time := "09:00", end_time := "10:00" }] 1
      { facility_code := "MR-1", user_name := "v", user_email := "v@x",
        date := "2024-06-01", start_time := "09:30", end_time := "10:30" }
      570 630 (by decide) (by decide) (by decide) (by decide)
    exact (h.2.1 (by decide)).mpr (by decide)
  · have h := create_booking_spec ["MR-1"]
      [{ id := 0, facility_code := "MR-1", user_name := "u", user_email := "u@x",
         date := "2024-06-01", start_time := "09:00", end_time := "10:00" }] 1
      { facility_code := "MR-1", user_name := "v", user_email := "v@x",
        date := "2024-06-01", start_time := "10:00", end_time := "11:00" }
      600 660 (by decide) (by decide) (by decide) (by decide)
    exact h.2.2 (by decide) (by decide)

/-- On a selected booking (approved, never checked in) whose date and
start time parse, `noShowEligible` is exactly the sweep's time test. -/
lemma noShowEligible_of_parses (grace todayOrd nowMin : Nat) {b : Booking}
    {bd startMin : Nat}
    (hst : b.status = "approved") (hchk : b.checked_in_at = none)
    (hbd : strptime_date b.date = some bd)
    (hsm : to_local_dt b.date b.start_time = some startMin) :
    noShowEligible grace todayOrd nowMin b
      = decide (bd ≤ todayOrd ∧ startMin + grace ≤ nowMin) := by
  rw [noShowEligible, hbd, hsm, hst, hchk]
  simp

/-- An unselected booking is never eligible. -/
lemma noShowEligible_of_unselected (grace todayOrd nowMin : Nat) {b : Booking}
    (h : ¬ (b.status = "approved" ∧ b.checked_in_at = none)) :
    noShowEligible grace todayOrd nowMin b = false := by
  rw [noShowEligible]
  rcases not_and_or.mp h with h1 | h1
  · simp [h1]
  · simp [h1]

/-- Characterization of the sweep when every selected booking's stored
date and start time parse: it completes, flips exactly the eligible
bookings to `no_show`, leaves every other booking unchanged, and returns
the number of flipped bookings. -/
lemma sweep_noshows_eq (grace todayOrd nowMin : Nat) (store : List Booking)
    (h : ∀ b ∈ store, b.status = "approved" → b.checked_in_at = none →
      (strptime_date b.date).isSome ∧ (to_local_dt b.date b.start_time).isSome) :
    sweep_noshows grace todayOrd nowMin store =
      .ok (store.map (fun b => if noShowEligible grace todayOrd nowMin b then
              { b with status := "no_show" } else b),
           store.countP (fun b => noShowEligible grace todayOrd nowMin b)) := by
  induction store with
  | nil => simp [sweep_noshows]
  | cons b rest ih =>
    have ih' := ih (fun x hx => h x (by simp [hx]))
    rw [sweep_noshows]
    by_cases hsel : b.status = "approved" ∧ b.checked_in_at = none
    · obtain ⟨hp1, hp2⟩ := h b (by simp) hsel.1 hsel.2
      obtain ⟨bd, hbd⟩ := Option.isSome_iff_exists.mp hp1
      obtain ⟨startMin, hsm⟩ := Option.isSome_iff_exists.mp hp2
      rw [if_pos hsel, hbd, hsm, ih']
      have he := noShowEligible_of_parses grace todayOrd nowMin hsel.1 hsel.2 hbd hsm
      by_cases hcond : bd ≤ todayOrd ∧ startMin + grace ≤ nowMin
      · simp only [if_pos hcond, List.map_cons, List.countP_cons, he,
          decide_eq_true hcond, if_true]
        simp [Nat.add_comm]
      · simp only [if_neg hcond, List.map_cons, List.countP_cons, he,
          decide_eq_false hcond, if_false, Bool.false_eq_true]
        simp
    · rw [if_neg hsel, ih']
      have he := noShowEligible_of_unselected grace todayOrd nowMin hsel
      simp [he, List.countP_cons]

/-- If the sweep completes without an exception, every selected booking's
date and start time parsed. -/
lemma sweep_ok_parses {grace todayOrd nowMin : Nat} {store : List Booking}
    (s1 : List Booking) (c : Nat)
    (h : sweep_noshows grace todayOrd nowMin store = .ok (s1, c)) :
    ∀ b ∈ store, b.status = "approved" → b.checked_in_at = none →
      (strptime_date b.date).isSome ∧ (to_local_dt b.date b.start_time).isSome := by
  induction store generalizing s1 c with
  | nil => simp
  | cons b rest ih =>
    rw [sweep_noshows] at h
    intro x hx hst hchk
    by_cases hsel : b.status = "approved" ∧ b.checked_in_at = none
    · rw [if_pos hsel] at h
      rcases List.mem_cons.mp hx with hx | hx
      · subst hx
        cases hbd : strptime_date x.date with
        | none => rw [hbd] at h; simp at h
        | some bd =>
          cases hsm : to_local_dt x.date x.start_time with
          | none => rw [hbd, hsm] at h; simp at h
          | some startMin => simp [hbd, hsm]
      · cases hbd : strptime_date b.date with
        | none => rw [hbd] at h; simp at h
        | some bd =>
          cases hsm : to_local_dt b.date b.start_time with
          | none => rw [hbd, hsm] at h; simp at h
          | some startMin =>
            rw [hbd, hsm] at h
            cases hrest : sweep_noshows grace todayOrd nowMin rest with
            | error e => rw [hrest] at h; simp at h
            | ok val =>
              exact ih val.1 val.2 (by rw [hrest]) x hx hst hchk
    · rw [if_neg hsel] at h
      rcases List.mem_cons.mp hx with hx | hx
      · subst hx; exact absurd ⟨hst, hchk⟩ hsel
      · cases hrest : sweep_noshows grace todayOrd nowMin rest with
        | error e => rw [hrest] at h; simp at h
        | ok val =>
          exact ih val.1 val.2 (by rw [hrest]) x hx hst hchk

/-- C4: the sweep transitions to `no_show` exactly the bookings that are
approved, never checked in, dated on or before today, and whose start
instant plus the grace period is at or before now (`noShowEligible`);
every other booking is unchanged and the count of transitioned bookings
is returned.  (Stated for stores whose selected bookings carry parseable
dates and times — otherwise the Python loop dies on `strptime`.) -/
theorem sweep_spec_c4 (grace todayOrd nowMin : Nat) (store : List Booking)
    (h : ∀ b ∈ store, b.status = "approved" → b.checked_in_at = none →
      (strptime_date b.date).isSome ∧ (to_local_dt b.date b.start_time).isSome) :
    sweep_noshows grace todayOrd nowMin store =
      .ok (store.map (fun b => if noShowEligible grace todayOrd nowMin b then
              { b with status := "no_show" } else b),
           store.countP (fun b => noShowEligible grace todayOrd nowMin b)) :=
  sweep_noshows_eq grace todayOrd nowMin store h

/-- Witness for C4 at the spec's Scenario D: an approved unchecked
booking for today at `08:00` with grace 15 is flipped to `no_show` when
the sweep runs at `08:16`, and left `approved` at `08:14`. -/
theorem sweep_spec_c4_witness :
    sweep_noshows 15 (dateOrdinal 2024 6 1) (dateOrdinal 2024 6 1 * 1440 + 496)
      [{ id := 0, facility_code := "MR-1", user_name := "u", user_email := "u@x",
         date := "2024-06-01", start_time := "08:00", end_time := "09:00",
         status := "approved", access_code := some "ABC123" }]
      = .ok ([{ id := 0, facility_code := "MR-1", user_name := "u",
                user_email := "u@x", date := "2024-06-01", start_time := "08:00",
                end_time := "09:00", status := "no_show",
                access_code := some "ABC123" }], 1)
    ∧ sweep_noshows 15 (dateOrdinal 2024 6 1) (dateOrdinal 2024 6 1 * 1440 + 494)
      [{ id := 0, facility_code := "MR-1", user_name := "u", user_email := "u@x",
         date := "2024-06-01", start_time := "08:00", end_time := "09:00",
         status := "approved", access_code := some "ABC123" }]
      = .ok ([{ id := 0, facility_code := "MR-1", user_name := "u",
                user_email := "u@x", date := "2024-06-01", start_time := "08:00",
                end_time := "09:00", status := "approved",
                access_code := some "ABC123" }], 0) := by
  constructor
  · rw [sweep_spec_c4 15 (dateOrdinal 2024 6 1) (dateOrdinal 2024 6 1 * 1440 + 496)
      [{ id := 0, facility_code := "MR-1", user_name := "u", user_email := "u@x",
         date := "2024-06-01", start_time := "08:00", end_time := "09:00",
         status := "approved", access_code := some "ABC123" }] (by decide)]
    decide
  · rw [sweep_spec_c4 15 (dateOrdinal 2024 6 1) (dateOrdinal 2024 6 1 * 1440 + 494)
      [{ id := 0, facility_code := "MR-1", user_name := "u", user_email := "u@x",
         date := "2024-06-01", start_time := "08:00", end_time := "09:00",
         status := "approved", access_code := some "ABC123" }] (by decide)]
    decide

/-- C9: the sweep is idempotent — if a run completes, turning the store
`store` into `s1`, an immediate second run (same clock readings, no
intervening state change) completes with count 0 and leaves `s1`
untouched. -/
theorem sweep_idempotent_c9 (grace todayOrd nowMin : Nat) (store s1 : List Booking)
    (c : Nat) (h : sweep_noshows grace todayOrd nowMin store = .ok (s1, c)) :
    sweep_noshows grace todayOrd nowMin s1 = .ok (s1, 0) := by
  have hp := sweep_ok_parses s1 c h
  have h1 := sweep_noshows_eq grace todayOrd nowMin store hp
  rw [h] at h1
  simp only [Except.ok.injEq, Prod.mk.injEq] at h1
  obtain ⟨hmap, hcnt⟩ := h1
  have key : ∀ b' ∈ s1, noShowEligible grace todayOrd nowMin b' = false ∧
      (b'.status = "approved" → b'.checked_in_at = none →
        (strptime_date b'.date).isSome ∧ (to_local_dt b'.date b'.start_time).isSome) := by
    intro b' hb'
    rw [hmap] at hb'
    obtain ⟨b, hbmem, hbeq⟩ := List.mem_map.mp hb'
    by_cases helig : noShowEligible grace todayOrd nowMin b = true
    · rw [if_pos helig] at hbeq
      subst hbeq
      constructor
      · apply noShowEligible_of_unselected
        intro hcontra
        exact absurd hcontra.1 (by simp)
      · intro hst
        exact absurd hst (by simp)
    · rw [if_neg helig] at hbeq
      subst hbeq
      exact ⟨by simpa using helig, fun hst hchk => hp b hbmem hst hchk⟩
  rw [sweep_noshows_eq grace todayOrd nowMin s1 (fun b hb => (key b hb).2)]
  have hmapid : s1.map (fun b => if noShowEligible grace todayOrd nowMin b then
      { b with status := "no_show" } else b) = s1 := by
    rw [List.map_congr_left (fun b hb => if_neg (by rw [(key b hb).1]; simp))]
    exact List.map_id' s1
  have hzero : s1.countP (fun b => noShowEligible grace todayOrd nowMin b) = 0 :=
    List.countP_eq_zero.mpr (fun b hb => by rw [(key b hb).1]; simp)
  rw [hmapid, hzero]

/-- Witness for C9: the Scenario-D sweep that flips one booking, run
again on its own output, flips nothing. -/
theorem sweep_idempotent_c9_witness :
    sweep_noshows 15 (dateOrdinal 2024 6 1) (dateOrdinal 2024 6 1 * 1440 + 496)
      [{ id := 0, facility_code := "MR-1", user_name := "u", user_email := "u@x",
         date := "2024-06-01", start_time := "08:00", end_time := "09:00",
         status := "no_show", access_code := some "ABC123" }]
      = .ok ([{ id := 0, facility_code := "MR-1", user_name := "u",
                user_email := "u@x", date := "2024-06-01", start_time := "08:00",
                end_time := "09:00", status := "no_show",
                access_code := some "ABC123" }], 0) := by
  apply sweep_idempotent_c9 15 (dateOrdinal 2024 6 1)
    (dateOrdinal 2024 6 1 * 1440 + 496)
    [{ id := 0, facility_code := "MR-1", user_name := "u", user_email := "u@x",
       date := "2024-06-01", start_time := "08:00", end_time := "09:00",
       status := "approved", access_code := some "ABC123" }] _ 1
  decide

/-- C10: `check_in` performs no temporal check — for any booking found
under the given id with status `approved` and matching stored access
code, check-in succeeds and stamps `checked_in_at := now` for every
value of `now` whatsoever (before the booking's date, before its start,
or arbitrarily after its end): the only guards are the status test and
the code-equality test. -/
theorem check_in_no_temporal_guard_c10 (store : List Booking) (i : Nat)
    (b : Booking) (code : String) (now : Nat)
    (hfind : store.find? (fun x => x.id == i) = some b)
    (hst : b.status = "approved") (hcode : b.access_code = some code) :
    check_in store i code now =
      .ok (store.map (fun x =>
        if x.id == i then { x with checked_in_at := some now } else x)) := by
  rw [check_in, hfind]
  dsimp only
  rw [if_neg (by simp [hst]), if_neg (by simp [hcode])]

/-- Witness for C10: a booking dated `2030-01-01` is checked in at
instant 5 — far before its date — successfully. -/
theorem check_in_no_temporal_guard_c10_witness :
    check_in
      [{ id := 0, facility_code := "MR-1", user_name := "u", user_email := "u@x",
         date := "2030-01-01", start_time := "09:00", end_time := "10:00",
         status := "approved", access_code := some "ABC123" }] 0 "ABC123" 5
      = .ok [{ id := 0, facility_code := "MR-1", user_name := "u",
               user_email := "u@x", date := "2030-01-01", start_time := "09:00",
               end_time := "10:00", status := "approved",
               access_code := some "ABC123", checked_in_at := some 5 }] := by
  rw [check_in_no_temporal_guard_c10
    [{ id := 0, facility_code := "MR-1", user_name := "u", user_email := "u@x",
       date := "2030-01-01", start_time := "09:00", end_time := "10:00",
       status := "approved", access_code := some "ABC123" }] 0
    { id := 0, facility_code := "MR-1", user_name := "u", user_email := "u@x",
      date := "2030-01-01", start_time := "09:00", end_time := "10:00",
      status := "approved", access_code := some "ABC123" } "ABC123" 5
    (by decide) (by decide) (by decide)]
  decide

/-- C5 [code bug]: `check_in` never tests whether `checked_in_at` is
already set, so a repeat check-in with the correct code overwrites it
with the later clock reading.  Here the booking is created, approved
with code `ABC123`, checked in at instant 100, then checked in again at
instant 200 — and `checked_in_at` ends at `some 200`, not `some 100`,
contradicting the claim that it can never move to a later value.  (The
wrong-code half of the claim does hold: a mismatched code yields the
403 error before any write.) -/
theorem check_in_overwrites_c5 :
    (runOps ["MR-1"] initState
      [.create { facility_code := "MR-1", user_name := "u", user_email := "u@x",
                 date := "2024-06-01", start_time := "09:00", end_time := "10:00" },
       .admin 0 .approve "ABC123",
       .checkin 0 "ABC123" 100,
       .checkin 0 "ABC123" 200]).store.map (fun b => b.checked_in_at)
      = [some 200]
    ∧ check_in
      [{ id := 0, facility_code := "MR-1", user_name := "u", user_email := "u@x",
         date := "2024-06-01", start_time := "09:00", end_time := "10:00",
         status := "approved", access_code := some "ABC123" }] 0 "WRONG0" 100
      = .error (.http 403 "Invalid access code") := by
  constructor
  · decide
  · decide

/-- When the candidate's start time fails to parse, `overlaps` dies on
its very first conversion. -/
lemma overlaps_start_none {s1 : String} (e1 s2 e2 : String)
    (h : to_local_dt "2000-01-01" s1 = none) :
    overlaps s1 e1 s2 e2 = none := by
  rw [overlaps, h]
  rfl

/-- C8 counterexample: the times `0a:00`/`0b:00` do not match `HH:MM`,
yet `create_booking` raises no validation error for them — the string
comparison `start >= end` passes, the conflict check reaches
`overlaps`, and the parse failure surfaces as an unhandled `ValueError`
(a 500, not the 400 `ValidationError` the claim promises). -/
theorem malformed_time_uncaught_c8 :
    create_booking ["MR-1"]
      [{ id := 0, facility_code := "MR-1", user_name := "u", user_email := "u@x",
         date := "2024-06-01", start_time := "09:00", end_time := "10:00" }] 1
      { facility_code := "MR-1", user_name := "v", user_email := "v@x",
        date := "2024-06-01", start_time := "0a:00", end_time := "0b:00" }
      = .error .uncaught
    ∧ Err.uncaught ≠ Err.http 400 "Invalid time range" := by
  constructor
  · decide
  · decide

/-- C8 amended: no operation validates time-of-day strings up front.  In
`create_booking` the only time check is the lexicographic
`start >= end` comparison; a candidate whose start time does not parse
but survives that comparison reaches the conflict check whenever any
active booking exists for the same facility and date, and the parse
failure escapes as an unhandled error — not as a `ValidationError`. -/
theorem malformed_time_c8_amended (facs : List String) (store : List Booking)
    (nextId : Nat) (p : CreateBooking)
    (hfac : facs.contains p.facility_code = true)
    (hlt : pyStrGe p.start_time p.end_time = false)
    (hbad : to_local_dt "2000-01-01" p.start_time = none)
    (hne : store.filter (matchesKey p.facility_code p.date) ≠ []) :
    create_booking facs store nextId p = .error .uncaught := by
  have hmem : p.facility_code ∈ facs := by simpa using hfac
  cases hl : store.filter (matchesKey p.facility_code p.date) with
  | nil => exact absurd hl hne
  | cons b rest =>
    have hcc : checkConflicts p.start_time p.end_time (b :: rest)
        = .error .uncaught := by
      rw [checkConflicts, overlaps_start_none p.end_time b.start_time b.end_time hbad]
    simp [create_booking, hmem, hlt, hl, hcc]

/-- Witness for the amended C8 at the counterexample's input. -/
theorem malformed_time_c8_amended_witness :
    create_booking ["MR-1"]
      [{ id := 0, facility_code := "MR-1", user_name := "u", user_email := "u@x",
         date := "2024-06-01", start_time := "09:00", end_time := "10:00" }] 1
      { facility_code := "MR-1", user_name := "w", user_email := "w@x",
        date := "2024-06-01", start_time := "1a:00", end_time := "1b:00" }
      = .error .uncaught := by
  apply malformed_time_c8_amended
  · decide
  · decide
  · decide
  · decide

lemma markRange_length (s e : Int) :
    ∀ (cov : List Nat) (idx : Nat), (markRange s e idx cov).length = cov.length := by
  intro cov
  induction cov with
  | nil => intro idx; rfl
  | cons v rest ih => intro idx; simp [markRange, ih]

/-- Cell `m` after one marking pass: freshly 1 when `idx + m` lies in
`[s, e)`, otherwise whatever it was. -/
lemma markRange_getD (s e : Int) (cov : List Nat) :
    ∀ (idx m : Nat),
    (markRange s e idx cov).getD m 0 =
      if m < cov.length ∧ s ≤ ((idx : Int) + m) ∧ ((idx : Int) + m) < e
      then 1 else cov.getD m 0 := by
  induction cov with
  | nil =>
    intro idx m
    simp [markRange]
  | cons v rest ih =>
    intro idx m
    rw [show markRange s e idx (v :: rest)
        = (if s ≤ (idx : Int) ∧ (idx : Int) < e then 1 else v)
          :: markRange s e (idx + 1) rest from rfl]
    cases m with
    | zero =>
      rw [List.getD_cons_zero, List.getD_cons_zero]
      by_cases h : s ≤ (idx : Int) ∧ (idx : Int) < e
      · rw [if_pos h, if_pos (by refine ⟨by simp, by simpa using h.1, by simpa using h.2⟩)]
      · rw [if_neg h, if_neg (fun hc => h ⟨by simpa using hc.2.1, by simpa using hc.2.2⟩)]
    | succ m =>
      rw [List.getD_cons_succ, List.getD_cons_succ, ih (idx + 1) m]
      have hiff : (m < rest.length ∧ s ≤ ((idx + 1 : Nat) : Int) + m
            ∧ ((idx + 1 : Nat) : Int) + m < e)
          ↔ (m + 1 < (v :: rest).length ∧ s ≤ (idx : Int) + (m + 1 : Nat)
            ∧ (idx : Int) + (m + 1 : Nat) < e) := by
        constructor
        · rintro ⟨h1, h2, h3⟩
          refine ⟨by simpa using h1, ?_, ?_⟩
          · push_cast at h2 ⊢; omega
          · push_cast at h3 ⊢; omega
        · rintro ⟨h1, h2, h3⟩
          refine ⟨by simpa using h1, ?_, ?_⟩
          · push_cast at h2 ⊢; omega
          · push_cast at h3 ⊢; omega
      simp only [hiff]

lemma buildCovered_length : ∀ (bs : List Booking) (cov cov2 : List Nat),
    buildCovered cov bs = some cov2 → cov2.length = cov.length := by
  intro bs
  induction bs with
  | nil =>
    intro cov cov2 h
    simp only [buildCovered, Option.some.injEq] at h
    rw [← h]
  | cons b rest ih =>
    intro cov cov2 h
    rw [buildCovered] at h
    cases hms : minutes b.start_time with
    | none => rw [hms] at h; simp at h
    | some ms =>
      cases hme : minutes b.end_time with
      | none => rw [hms, hme] at h; simp at h
      | some me =>
        rw [hms, hme] at h
        rw [ih _ _ h, markRange_length]

/-- A cell of the finished bitmap is nonzero exactly when some processed
booking covers it (or it was already nonzero). -/
lemma buildCovered_getD : ∀ (bs : List Booking) (cov cov2 : List Nat),
    buildCovered cov bs = some cov2 → ∀ m, m < cov.length →
    (cov2.getD m 0 ≠ 0 ↔
      ((∃ b ∈ bs, coversMinute b m = true) ∨ cov.getD m 0 ≠ 0)) := by
  intro bs
  induction bs with
  | nil =>
    intro cov cov2 h m hm
    simp only [buildCovered, Option.some.injEq] at h
    rw [← h]
    simp
  | cons b rest ih =>
    intro cov cov2 h m hm
    rw [buildCovered] at h
    cases hms : minutes b.start_time with
    | none => rw [hms] at h; simp at h
    | some ms =>
      cases hme : minutes b.end_time with
      | none => rw [hms, hme] at h; simp at h
      | some me =>
        rw [hms, hme] at h
        have ihh := ih _ _ h m (by rw [markRange_length]; exact hm)
        rw [ihh, markRange_getD]
        have hC : (m < cov.length ∧ (max (ms : Int) 480 - 480) ≤ ((0 : Nat) : Int) + m
              ∧ ((0 : Nat) : Int) + m < (min (me : Int) 1320 - 480))
            ↔ coversMinute b m = true := by
          rw [coversMinute, hms, hme]
          simp only [decide_eq_true_eq, Nat.cast_zero, zero_add]
          constructor
          · rintro ⟨_, h2, h3⟩; exact ⟨h2, h3⟩
          · rintro ⟨h2, h3⟩; exact ⟨hm, h2, h3⟩
        by_cases hc : coversMinute b m = true
        · rw [if_pos (hC.mpr hc)]
          simp [hc]
        · rw [if_neg (fun hcc => hc (hC.mp hcc))]
          simp [hc]

lemma buildCovered_isSome : ∀ (bs : List Booking) (cov : List Nat),
    (∀ b ∈ bs, (minutes b.start_time).isSome ∧ (minutes b.end_time).isSome) →
    ∃ cov2, buildCovered cov bs = some cov2 := by
  intro bs
  induction bs with
  | nil => intro cov _; exact ⟨cov, rfl⟩
  | cons b rest ih =>
    intro cov hp
    obtain ⟨h1, h2⟩ := hp b (by simp)
    obtain ⟨ms, hms⟩ := Option.isSome_iff_exists.mp h1
    obtain ⟨me, hme⟩ := Option.isSome_iff_exists.mp h2
    obtain ⟨cov2, hcov2⟩ := ih
      (markRange ((max ms 480 : Int) - 480) ((min me 1320 : Int) - 480) 0 cov)
      (fun x hx => hp x (by simp [hx]))
    exact ⟨cov2, by rw [buildCovered, hms, hme]; exact hcov2⟩

/-- C7: for an existing facility, `availability` reports the active
bookings' intervals and sets `fully_occupied` to true exactly when
every minute of the operating window `[08:00, 22:00)` is covered by at
least one pending/approved booking for that facility and date, each
booking clipped to the window.  (Stated for stores whose matching
bookings carry parseable times — otherwise the Python loop raises.) -/
theorem availability_fully_occupied_c7 (facs : List String) (store : List Booking)
    (fc ds : String) (hfac : facs.contains fc = true)
    (hparse : ∀ b ∈ store.filter (matchesKey fc ds),
      (minutes b.start_time).isSome ∧ (minutes b.end_time).isSome) :
    ∃ full : Bool,
      availability facs store fc ds =
        .ok ((store.filter (matchesKey fc ds)).map
               (fun b => (b.start_time, b.end_time, b.status)), full)
      ∧ (full = true ↔ ∀ m, m < 840 →
          ∃ b ∈ store.filter (matchesKey fc ds), coversMinute b m = true) := by
  obtain ⟨cov2, hcov2⟩ := buildCovered_isSome (store.filter (matchesKey fc ds))
    (List.replicate 840 0) hparse
  have hlen : cov2.length = 840 := by
    rw [buildCovered_length _ _ _ hcov2, List.length_replicate]
  have hne : cov2.isEmpty = false := by
    cases cov2 with
    | nil => simp at hlen
    | cons a t => rfl
  have hiff : (cov2.all (fun v => v != 0) = true) ↔
      (∀ m, m < 840 →
        ∃ b ∈ store.filter (matchesKey fc ds), coversMinute b m = true) := by
    rw [List.all_eq_true]
    constructor
    · intro hall m hm
      have h1 := buildCovered_getD _ _ _ hcov2 m
        (by rw [List.length_replicate]; exact hm)
      have hmlen : m < cov2.length := by omega
      have h2 : cov2.getD m 0 ≠ 0 := by
        rw [List.getD_eq_getElem _ _ hmlen]
        have h3 := hall _ (List.getElem_mem hmlen)
        simpa using h3
      rcases h1.mp h2 with h3 | h3
      · exact h3
      · exfalso
        apply h3
        rw [List.getD_eq_getElem _ _ (by rw [List.length_replicate]; exact hm)]
        rw [List.getElem_replicate]
    · intro hex v hv
      obtain ⟨i, hi, hiv⟩ := List.mem_iff_getElem.mp hv
      have hi840 : i < 840 := by omega
      have h1 := buildCovered_getD _ _ _ hcov2 i
        (by rw [List.length_replicate]; exact hi840)
      have h2 : cov2.getD i 0 ≠ 0 := h1.mpr (Or.inl (hex i hi840))
      rw [List.getD_eq_getElem _ _ hi, hiv] at h2
      simpa using h2
  refine ⟨!cov2.isEmpty && cov2.all (fun v => v != 0), ?_, ?_⟩
  · simp only [availability, hfac, hcov2, Bool.not_true, Bool.false_eq_true,
      if_false, not_true_eq_false]
  · rw [hne]
    simp only [Bool.not_false, Bool.true_and]
    exact hiff

/-- Witness for C7: bookings exactly tiling `[08:00,22:00)` yield
`fully_occupied = true`; opening a one-minute gap (second booking
starting `15:01`) yields `false`. -/
theorem availability_fully_occupied_c7_witness :
    availability ["BH-1"]
      [{ id := 0, facility_code := "BH-1", user_name := "u", user_email := "u@x",
         date := "2024-06-01", start_time := "08:00", end_time := "15:00" },
       { id := 1, facility_code := "BH-1", user_name := "v", user_email := "v@x",
         date := "2024-06-01", start_time := "15:00", end_time := "22:00",
         status := "approved" }] "BH-1" "2024-06-01"
      = .ok ([("08:00", "15:00", "pending"), ("15:00", "22:00", "approved")], true)
    ∧ availability ["BH-1"]
      [{ id := 0, facility_code := "BH-1", user_name := "u", user_email := "u@x",
         date := "2024-06-01", start_time := "08:00", end_time := "15:00" },
       { id := 1, facility_code := "BH-1", user_name := "v", user_email := "v@x",
         date := "2024-06-01", start_time := "15:01", end_time := "22:00",
         status := "approved" }] "BH-1" "2024-06-01"
      = .ok ([("08:00", "15:00", "pending"), ("15:01", "22:00", "approved")], false) := by
  constructor
  · obtain ⟨full, heq, hiff⟩ := availability_fully_occupied_c7 ["BH-1"]
      [{ id := 0, facility_code := "BH-1", user_name := "u", user_email := "u@x",
         date := "2024-06-01", start_time := "08:00", end_time := "15:00" },
       { id := 1, facility_code := "BH-1", user_name := "v", user_email := "v@x",
         date := "2024-06-01", start_time := "15:00", end_time := "22:00",
         status := "approved" }] "BH-1" "2024-06-01" (by decide) (by decide)
    have hfull : full = true := by
      apply hiff.mpr
      intro m hm
      by_cases h420 : m < 420
      · refine ⟨{ id := 0, facility_code := "BH-1", user_name := "u",
                  user_email := "u@x", date := "2024-06-01",
                  start_time := "08:00", end_time := "15:00" }, by decide, ?_⟩
        rw [coversMinute]
        rw [show minutes "08:00" = some 480 from by decide,
          show minutes "15:00" = some 900 from by decide]
        simp only [decide_eq_true_eq]
        omega
      · refine ⟨{ id := 1, facility_code := "BH-1", user_name := "v",
                  user_email := "v@x", date := "2024-06-01",
                  start_time := "15:00", end_time := "22:00",
                  status := "approved" }, by decide, ?_⟩
        rw [coversMinute]
        rw [show minutes "15:00" = some 900 from by decide,
          show minutes "22:00" = some 1320 from by decide]
        simp only [decide_eq_true_eq]
        omega
    rw [hfull] at heq
    rw [heq]
    decide
  · obtain ⟨full, heq, hiff⟩ := availability_fully_occupied_c7 ["BH-1"]
      [{ id := 0, facility_code := "BH-1", user_name := "u", user_email := "u@x",
         date := "2024-06-01", start_time := "08:00", end_time := "15:00" },
       { id := 1, facility_code := "BH-1", user_name := "v", user_email := "v@x",
         date := "2024-06-01", start_time := "15:01", end_time := "22:00",
         status := "approved" }] "BH-1" "2024-06-01" (by decide) (by decide)
    have hfull : full = false := by
      cases hf : full with
      | false => rfl
      | true =>
        exfalso
        exact absurd ((hiff.mp hf) 420 (by omega)) (by decide)
    rw [hfull] at heq
    rw [heq]
    decide

/-- Pointwise relation between a booking and its updated version that
keeps identity, key and interval, and can only deactivate (or keep) the
status.  All status updates except re-approval of an inactive booking
fit this relation. -/
def weakens (b b' : Booking) : Prop :=
  b'.id = b.id ∧ b'.facility_code = b.facility_code ∧ b'.date = b.date ∧
  b'.start_time = b.start_time ∧ b'.end_time = b.end_time ∧
  (isActiveStatus b'.status = true → isActiveStatus b.status = true)

lemma weakens_refl (b : Booking) : weakens b b :=
  ⟨rfl, rfl, rfl, rfl, rfl, fun h => h⟩

lemma forall2_weakens_mem_right :
    ∀ {l l' : List Booking}, List.Forall₂ weakens l l' →
    ∀ b' ∈ l', ∃ b ∈ l, weakens b b' := by
  intro l l' h
  induction h with
  | nil => simp
  | cons hr _ ih =>
    intro b' hb'
    rcases List.mem_cons.mp hb' with hb' | hb'
    · subst hb'
      exact ⟨_, by simp, hr⟩
    · obtain ⟨b, hb, hR⟩ := ih b' hb'
      exact ⟨b, by simp [hb], hR⟩

lemma forall2_weakens_map {f : Booking → Booking} :
    ∀ {l : List Booking}, (∀ b ∈ l, weakens b (f b)) →
    List.Forall₂ weakens l (l.map f) := by
  intro l
  induction l with
  | nil => intro _; simp
  | cons b rest ih =>
    intro h
    rw [List.map_cons]
    exact List.Forall₂.cons (h b (by simp)) (ih (fun x hx => h x (by simp [hx])))

/-- `conflictFreeB` unfolded to its quantifier form. -/
lemma conflictFreeB_iff (store : List Booking) : conflictFreeB store = true ↔
    ∀ b1 ∈ store, ∀ b2 ∈ store, b1.id ≠ b2.id →
      isActiveStatus b1.status = true → isActiveStatus b2.status = true →
      b1.facility_code = b2.facility_code → b1.date = b2.date →
      ¬ overlaps b1.start_time b1.end_time b2.start_time b2.end_time = some true := by
  rw [conflictFreeB, List.all_eq_true]
  constructor
  · intro h b1 h1 b2 h2 hid ha1 ha2 hfc hdt hov
    have h3 := h b1 h1
    rw [List.all_eq_true] at h3
    have h4 := h3 b2 h2
    simp only [Bool.not_eq_eq_eq_not, Bool.not_true, Bool.and_eq_false_iff] at h4
    simp [hid, ha1, ha2, hfc, hdt, hov] at h4
  · intro h b1 h1
    rw [List.all_eq_true]
    intro b2 h2
    simp only [Bool.not_eq_eq_eq_not, Bool.not_true, Bool.and_eq_false_iff]
    by_cases hid : b1.id = b2.id
    · simp [hid]
    · by_cases ha1 : isActiveStatus b1.status = true
      · by_cases ha2 : isActiveStatus b2.status = true
        · by_cases hfc : b1.facility_code = b2.facility_code
          · by_cases hdt : b1.date = b2.date
            · have := h b1 h1 b2 h2 hid ha1 ha2 hfc hdt
              simp [hid, ha1, ha2, hfc, hdt, this]
            · simp [hdt]
          · simp [hfc]
        · simp [ha2]
      · simp [ha1]

/-- Conflict-freedom transfers along a pointwise weakening of the store. -/
lemma conflictFreeB_of_weakens {store store' : List Booking}
    (hw : List.Forall₂ weakens store store')
    (h : conflictFreeB store = true) : conflictFreeB store' = true := by
  rw [conflictFreeB_iff] at h ⊢
  intro b1' h1' b2' h2' hid ha1 ha2 hfc hdt
  obtain ⟨b1, h1, w1⟩ := forall2_weakens_mem_right hw b1' h1'
  obtain ⟨b2, h2, w2⟩ := forall2_weakens_mem_right hw b2' h2'
  rw [w1.2.2.2.1, w1.2.2.2.2.1, w2.2.2.2.1, w2.2.2.2.2.1]
  exact h b1 h1 b2 h2 (by rw [← w1.1, ← w2.1]; exact hid) (w1.2.2.2.2.2 ha1)
    (w2.2.2.2.2.2 ha2) (by rw [← w1.2.1, ← w2.2.1]; exact hfc)
    (by rw [← w1.2.2.1, ← w2.2.2.1]; exact hdt)

/-- A successful approve whose target was active only rewrites the
target's status to `approved` (still active), weakening pointwise. -/
lemma admin_approve_weakens {store store2 : List Booking} {i : Nat} {g : String}
    (h : admin_action store i .approve g = .ok store2)
    (hact : ∀ b ∈ store, b.id = i → isActiveStatus b.status = true) :
    List.Forall₂ weakens store store2 := by
  rw [admin_action] at h
  cases hf : store.find? (fun b => b.id == i) with
  | none => rw [hf] at h; simp at h
  | some b0 =>
    rw [hf] at h
    simp only [Except.ok.injEq] at h
    rw [← h]
    apply forall2_weakens_map
    intro b hb
    by_cases hbi : b.id == i
    · rw [if_pos hbi]
      exact ⟨rfl, rfl, rfl, rfl, rfl, fun _ => hact b hb (by simpa using hbi)⟩
    · rw [if_neg hbi]
      exact weakens_refl b

/-- A reject only deactivates the target, weakening pointwise. -/
lemma admin_reject_weakens {store store2 : List Booking} {i : Nat} {g : String}
    (h : admin_action store i .reject g = .ok store2) :
    List.Forall₂ weakens store store2 := by
  rw [admin_action] at h
  cases hf : store.find? (fun b => b.id == i) with
  | none => rw [hf] at h; simp at h
  | some b0 =>
    rw [hf] at h
    simp only [Except.ok.injEq] at h
    rw [← h]
    apply forall2_weakens_map
    intro b hb
    by_cases hbi : b.id == i
    · rw [if_pos hbi]
      exact ⟨rfl, rfl, rfl, rfl, rfl, fun hc => by simp [isActiveStatus] at hc⟩
    · rw [if_neg hbi]
      exact weakens_refl b

/-- A successful check-in touches only `checked_in_at`. -/
lemma check_in_weakens {store store2 : List Booking} {i now : Nat} {code : String}
    (h : check_in store i code now = .ok store2) :
    List.Forall₂ weakens store store2 := by
  rw [check_in] at h
  cases hf : store.find? (fun b => b.id == i) with
  | none => rw [hf] at h; simp at h
  | some b0 =>
    rw [hf] at h
    dsimp only at h
    by_cases h1 : b0.status ≠ "approved"
    · rw [if_pos h1] at h; simp at h
    · rw [if_neg h1] at h
      by_cases h2 : b0.access_code ≠ some code
      · rw [if_pos h2] at h; simp at h
      · rw [if_neg h2] at h
        simp only [Except.ok.injEq] at h
        rw [← h]
        apply forall2_weakens_map
        intro b hb
        by_cases hbi : b.id == i
        · rw [if_pos hbi]
          exact ⟨rfl, rfl, rfl, rfl, rfl, fun hc => hc⟩
        · rw [if_neg hbi]
          exact weakens_refl b

/-- The sweep — whether it completes or dies mid-scan — only flips
approved bookings to `no_show`, weakening pointwise. -/
lemma sweep_weakens (grace t n : Nat) : ∀ (store : List Booking),
    (∀ s1 c, sweep_noshows grace t n store = .ok (s1, c) →
      List.Forall₂ weakens store s1) ∧
    (∀ s1, sweep_noshows grace t n store = .error s1 →
      List.Forall₂ weakens store s1) := by
  intro store
  induction store with
  | nil =>
    constructor
    · intro s1 c h
      simp only [sweep_noshows, Except.ok.injEq, Prod.mk.injEq] at h
      rw [← h.1]
      exact List.Forall₂.nil
    · intro s1 h
      simp [sweep_noshows] at h
  | cons b rest ih =>
    constructor
    · intro s1 c h
      rw [sweep_noshows] at h
      by_cases hsel : b.status = "approved" ∧ b.checked_in_at = none
      · rw [if_pos hsel] at h
        cases hbd : strptime_date b.date with
        | none => rw [hbd] at h; simp at h
        | some bd =>
          cases hsm : to_local_dt b.date b.start_time with
          | none => rw [hbd, hsm] at h; simp at h
          | some sm =>
            rw [hbd, hsm] at h
            cases hrest : sweep_noshows grace t n rest with
            | error e => rw [hrest] at h; simp at h
            | ok val =>
              rw [hrest] at h
              simp only [Except.ok.injEq, Prod.mk.injEq] at h
              rw [← h.1]
              refine List.Forall₂.cons ?_ ((ih.1) val.1 val.2 (by rw [hrest]))
              by_cases hcond : bd ≤ t ∧ sm + grace ≤ n
              · rw [if_pos hcond]
                refine ⟨rfl, rfl, rfl, rfl, rfl, fun hc => ?_⟩
                simp [isActiveStatus] at hc
              · rw [if_neg hcond]
                exact weakens_refl b
      · rw [if_neg hsel] at h
        cases hrest : sweep_noshows grace t n rest with
        | error e => rw [hrest] at h; simp at h
        | ok val =>
          rw [hrest] at h
          simp only [Except.ok.injEq, Prod.mk.injEq] at h
          rw [← h.1]
          exact List.Forall₂.cons (weakens_refl b) ((ih.1) val.1 val.2 (by rw [hrest]))
    · intro s1 h
      rw [sweep_noshows] at h
      by_cases hsel : b.status = "approved" ∧ b.checked_in_at = none
      · rw [if_pos hsel] at h
        cases hbd : strptime_date b.date with
        | none =>
          rw [hbd] at h
          simp only [Except.error.injEq] at h
          rw [← h]
          exact List.Forall₂.cons (weakens_refl b)
            (List.forall₂_same.mpr (fun x _ => weakens_refl x))
        | some bd =>
          cases hsm : to_local_dt b.date b.start_time with
          | none =>
            rw [hbd, hsm] at h
            simp only [Except.error.injEq] at h
            rw [← h]
            exact List.Forall₂.cons (weakens_refl b)
              (List.forall₂_same.mpr (fun x _ => weakens_refl x))
          | some sm =>
            rw [hbd, hsm] at h
            cases hrest : sweep_noshows grace t n rest with
            | ok val => rw [hrest] at h; simp at h
            | error e =>
              rw [hrest] at h
              simp only [Except.error.injEq] at h
              rw [← h]
              refine List.Forall₂.cons ?_ ((ih.2) e (by rw [hrest]))
              by_cases hcond : bd ≤ t ∧ sm + grace ≤ n
              · rw [if_pos hcond]
                refine ⟨rfl, rfl, rfl, rfl, rfl, fun hc => ?_⟩
                simp [isActiveStatus] at hc
              · rw [if_neg hcond]
                exact weakens_refl b
      · rw [if_neg hsel] at h
        cases hrest : sweep_noshows grace t n rest with
        | ok val => rw [hrest] at h; simp at h
        | error e =>
          rw [hrest] at h
          simp only [Except.error.injEq] at h
          rw [← h]
          exact List.Forall₂.cons (weakens_refl b) ((ih.2) e (by rw [hrest]))

/-- A successful create appends a booking that passed the conflict loop
against every active same-key booking, so conflict-freedom is kept. -/
lemma conflictFreeB_create {facs : List String} {store store2 : List Booking}
    {nextId bid : Nat} {p : CreateBooking}
    (h : create_booking facs store nextId p = .ok (store2, bid))
    (hcf : conflictFreeB store = true) : conflictFreeB store2 = true := by
  rw [create_booking] at h
  by_cases h1 : ¬ facs.contains p.facility_code
  · rw [if_pos h1] at h; simp at h
  · rw [if_neg h1] at h
    by_cases h2 : pyStrGe p.start_time p.end_time
    · rw [if_pos h2] at h; simp at h
    · rw [if_neg h2] at h
      cases hcc : checkConflicts p.start_time p.end_time
          (store.filter (matchesKey p.facility_code p.date)) with
      | error e => rw [hcc] at h; simp at h
      | ok u =>
        rw [hcc] at h
        simp only [Except.ok.injEq, Prod.mk.injEq] at h
        obtain ⟨hstore2, -⟩ := h
        have hok : ∀ b ∈ store, matchesKey p.facility_code p.date b = true →
            overlaps p.start_time p.end_time b.start_time b.end_time = some false := by
          intro b hb hkey
          exact (checkConflicts_ok_iff _ _ _).mp (by cases u; exact hcc) b
            (List.mem_filter.mpr ⟨hb, hkey⟩)
        rw [← hstore2]
        rw [conflictFreeB_iff]
        rw [conflictFreeB_iff] at hcf
        intro b1 h1' b2 h2' hid ha1 ha2 hfc hdt hov
        rcases List.mem_append.mp h1' with hm1 | hm1 <;>
          rcases List.mem_append.mp h2' with hm2 | hm2
    -- both old bookings
        · exact hcf b1 hm1 b2 hm2 hid ha1 ha2 hfc hdt hov
    -- b2 is the new booking
        · have hb2 : b2 = newBooking nextId p := by simpa using hm2
          subst hb2
          have hkey1 : matchesKey p.facility_code p.date b1 = true := by
            rw [matchesKey]
            simp only [newBooking] at hfc hdt
            simp [hfc, hdt, ha1]
          have hf := hok b1 hm1 hkey1
          simp only [newBooking] at hov
          rw [overlaps_comm_true] at hov
          rw [hov] at hf
          simp at hf
    -- b1 is the new booking
        · have hb1 : b1 = newBooking nextId p := by simpa using hm1
          subst hb1
          have hkey2 : matchesKey p.facility_code p.date b2 = true := by
            rw [matchesKey]
            simp only [newBooking] at hfc hdt
            simp [← hfc, ← hdt, ha2]
          have hf := hok b2 hm2 hkey2
          simp only [newBooking] at hov
          rw [hov] at hf
          simp at hf
    -- both are the new booking: contradicts distinct ids
        · have hb1 : b1 = newBooking nextId p := by simpa using hm1
          have hb2 : b2 = newBooking nextId p := by simpa using hm2
          exact hid (by rw [hb1, hb2])

/-- Bool-valued restriction on an operation trace from state `s`: every
admin-approve targets only bookings whose current status is still
active (pending or approved) — i.e. no re-activation of a decided
booking. -/
def approvesOnlyActiveB (facs : List String) : SysState → List Op → Bool
  | _, [] => true
  | s, op :: rest =>
    (match op with
     | .admin i .approve _ =>
       s.store.all (fun b => !(b.id == i) || isActiveStatus b.status)
     | _ => true)
    && approvesOnlyActiveB facs (stepOp facs s op) rest

/-- C1 counterexample: invariant I2 does NOT survive every sequence of
create / admin-approve / admin-reject.  Create `09:00-10:00` (id 0),
reject it, create the overlapping `09:30-10:30` (id 1, admitted because
id 0 is now inactive), then re-approve id 0 — `admin_action` has no
status guard, so id 0 becomes active again and the two active bookings
overlap. -/
theorem invariant_I2_c1_counterexample :
    conflictFreeB (runOps ["MR-1"] initState
      [.create { facility_code := "MR-1", user_name := "u", user_email := "u@x",
                 date := "2024-06-01", start_time := "09:00", end_time := "10:00" },
       .admin 0 .reject "",
       .create { facility_code := "MR-1", user_name := "v", user_email := "v@x",
                 date := "2024-06-01", start_time := "09:30", end_time := "10:30" },
       .admin 0 .approve "A1B2C3"]).store = false := by decide

/-- C1 amended: invariant I2 holds after every sequence of operations
(create, admin actions, check-ins, sweeps) in which each admin-approve
targets only a booking that is still pending or approved: for every
facility and date, no two distinct active bookings overlap under the
code's own `overlaps` predicate. -/
theorem invariant_I2_c1_amended (facs : List String) (ops : List Op)
    (hops : approvesOnlyActiveB facs initState ops = true) :
    conflictFreeB (runOps facs initState ops).store = true := by
  suffices hgen : ∀ (l : List Op) (s : SysState),
      approvesOnlyActiveB facs s l = true → conflictFreeB s.store = true →
      conflictFreeB (runOps facs s l).store = true by
    exact hgen ops initState hops (by decide)
  intro l
  induction l with
  | nil => intro s _ hcf; exact hcf
  | cons op rest ih =>
    intro s hops' hcf
    rw [runOps]
    cases op with
    | create p =>
      simp only [approvesOnlyActiveB, Bool.true_and] at hops'
      apply ih _ hops'
      rw [stepOp]
      cases hc : create_booking facs s.store s.nextId p with
      | ok v =>
        cases v with
        | mk st bid => exact conflictFreeB_create hc hcf
      | error e => exact hcf
    | admin i a g =>
      cases a with
      | approve =>
        simp only [approvesOnlyActiveB, Bool.and_eq_true] at hops'
        obtain ⟨hop, hrest⟩ := hops'
        apply ih _ hrest
        rw [stepOp]
        cases hc : admin_action s.store i .approve g with
        | ok st2 =>
          have hact : ∀ b ∈ s.store, b.id = i → isActiveStatus b.status = true := by
            intro b hb hbi
            have h3 := (List.all_eq_true.mp hop) b hb
            rw [Bool.or_eq_true, Bool.not_eq_true', beq_eq_false_iff_ne] at h3
            rcases h3 with h3 | h3
            · exact absurd hbi h3
            · exact h3
          exact conflictFreeB_of_weakens (admin_approve_weakens hc hact) hcf
        | error e => exact hcf
      | reject =>
        simp only [approvesOnlyActiveB, Bool.true_and] at hops'
        apply ih _ hops'
        rw [stepOp]
        cases hc : admin_action s.store i .reject g with
        | ok st2 => exact conflictFreeB_of_weakens (admin_reject_weakens hc) hcf
        | error e => exact hcf
    | checkin i code now =>
      simp only [approvesOnlyActiveB, Bool.true_and] at hops'
      apply ih _ hops'
      rw [stepOp]
      cases hc : check_in s.store i code now with
      | ok st2 => exact conflictFreeB_of_weakens (check_in_weakens hc) hcf
      | error e => exact hcf
    | sweep g t n =>
      simp only [approvesOnlyActiveB, Bool.true_and] at hops'
      apply ih _ hops'
      rw [stepOp]
      cases hc : sweep_noshows g t n s.store with
      | ok v =>
        cases v with
        | mk st c =>
          exact conflictFreeB_of_weakens ((sweep_weakens g t n s.store).1 st c hc) hcf
      | error st =>
        exact conflictFreeB_of_weakens ((sweep_weakens g t n s.store).2 st hc) hcf

/-- Witness for the amended C1: the counterexample's trace without the
forbidden re-approval (approve id 0 while still pending, then reject
it, then book the overlapping slot) keeps the store conflict-free. -/
theorem invariant_I2_c1_amended_witness :
    conflictFreeB (runOps ["MR-1"] initState
      [.create { facility_code := "MR-1", user_name := "u", user_email := "u@x",
                 date := "2024-06-01", start_time := "09:00", end_time := "10:00" },
       .admin 0 .approve "A1B2C3",
       .admin 0 .reject "",
       .create { facility_code := "MR-1", user_name := "v", user_email := "v@x",
                 date := "2024-06-01", start_time := "09:30", end_time := "10:30" }]).store
      = true := by
  apply invariant_I2_c1_amended
  decide

/-- The I3 predicate exactly as claim C6 states it: `access_code` is set
iff the status is `approved` or a terminal state reached from approved —
`no_show`, or approved with check-in.  (Spec-side definition, written
from the claim's words, for comparison against the code's behaviour.) -/
def specI3B (store : List Booking) : Bool :=
  store.all (fun b =>
    b.access_code.isSome
      == (b.status == "approved" || b.status == "no_show" || b.checked_in_at.isSome))

/-- C6 counterexample: create, approve (code issued), then reject — the
reject only rewrites `status`, so the rejected booking keeps its access
code, violating the claimed iff (status `rejected` is not in the claim's
code-bearing set). -/
theorem invariant_I3_c6_counterexample :
    specI3B (runOps ["MR-1"] initState
      [.create { facility_code := "MR-1", user_name := "u", user_email := "u@x",
                 date := "2024-06-01", start_time := "09:00", end_time := "10:00" },
       .admin 0 .approve "A1B2C3",
       .admin 0 .reject ""]).store = false := by decide

/-- Pointwise relation: the update keeps identity and access code. -/
def keepsIdCode (b b' : Booking) : Prop :=
  b'.id = b.id ∧ b'.access_code = b.access_code

lemma forall2_mem_right {R : Booking → Booking → Prop} :
    ∀ {l l' : List Booking}, List.Forall₂ R l l' → ∀ b' ∈ l', ∃ b ∈ l, R b b' := by
  intro l l' h
  induction h with
  | nil => simp
  | cons hr _ ih =>
    intro b' hb'
    rcases List.mem_cons.mp hb' with hb' | hb'
    · subst hb'
      exact ⟨_, by simp, hr⟩
    · obtain ⟨b, hb, hR⟩ := ih b' hb'
      exact ⟨b, by simp [hb], hR⟩

/-- The sweep rewrites only statuses: ids and access codes survive, in
both the completing and the mid-scan-crash outcome. -/
lemma sweep_keepsIdCode (grace t n : Nat) : ∀ (store : List Booking),
    (∀ s1 c, sweep_noshows grace t n store = .ok (s1, c) →
      List.Forall₂ keepsIdCode store s1) ∧
    (∀ s1, sweep_noshows grace t n store = .error s1 →
      List.Forall₂ keepsIdCode store s1) := by
  intro store
  induction store with
  | nil =>
    constructor
    · intro s1 c h
      simp only [sweep_noshows, Except.ok.injEq, Prod.mk.injEq] at h
      rw [← h.1]
      exact List.Forall₂.nil
    · intro s1 h
      simp [sweep_noshows] at h
  | cons b rest ih =>
    have hhead : ∀ p : Prop, ∀ inst : Decidable p, keepsIdCode b
        (if p then { b with status := "no_show" } else b) := by
      intro p inst
      by_cases hp : p
      · rw [if_pos hp]; exact ⟨rfl, rfl⟩
      · rw [if_neg hp]; exact ⟨rfl, rfl⟩
    constructor
    · intro s1 c h
      rw [sweep_noshows] at h
      by_cases hsel : b.status = "approved" ∧ b.checked_in_at = none
      · rw [if_pos hsel] at h
        cases hbd : strptime_date b.date with
        | none => rw [hbd] at h; simp at h
        | some bd =>
          cases hsm : to_local_dt b.date b.start_time with
          | none => rw [hbd, hsm] at h; simp at h
          | some sm =>
            rw [hbd, hsm] at h
            cases hrest : sweep_noshows grace t n rest with
            | error e => rw [hrest] at h; simp at h
            | ok val =>
              rw [hrest] at h
              simp only [Except.ok.injEq, Prod.mk.injEq] at h
              rw [← h.1]
              exact List.Forall₂.cons (hhead _ _) ((ih.1) val.1 val.2 (by rw [hrest]))
      · rw [if_neg hsel] at h
        cases hrest : sweep_noshows grace t n rest with
        | error e => rw [hrest] at h; simp at h
        | ok val =>
          rw [hrest] at h
          simp only [Except.ok.injEq, Prod.mk.injEq] at h
          rw [← h.1]
          exact List.Forall₂.cons ⟨rfl, rfl⟩ ((ih.1) val.1 val.2 (by rw [hrest]))
    · intro s1 h
      rw [sweep_noshows] at h
      by_cases hsel : b.status = "approved" ∧ b.checked_in_at = none
      · rw [if_pos hsel] at h
        cases hbd : strptime_date b.date with
        | none =>
          simp only [hbd, Except.error.injEq] at h
          rw [← h]
          exact List.Forall₂.cons ⟨rfl, rfl⟩
            (List.forall₂_same.mpr (fun x _ => ⟨rfl, rfl⟩))
        | some bd =>
          cases hsm : to_local_dt b.date b.start_time with
          | none =>
            simp only [hbd, hsm, Except.error.injEq] at h
            rw [← h]
            exact List.Forall₂.cons ⟨rfl, rfl⟩
              (List.forall₂_same.mpr (fun x _ => ⟨rfl, rfl⟩))
          | some sm =>
            rw [hbd, hsm] at h
            cases hrest : sweep_noshows grace t n rest with
            | ok val => rw [hrest] at h; simp at h
            | error e =>
              rw [hrest] at h
              simp only [Except.error.injEq] at h
              rw [← h]
              exact List.Forall₂.cons (hhead _ _) ((ih.2) e (by rw [hrest]))
      · rw [if_neg hsel] at h
        cases hrest : sweep_noshows grace t n rest with
        | ok val => rw [hrest] at h; simp at h
        | error e =>
          rw [hrest] at h
          simp only [Except.error.injEq] at h
          rw [← h]
          exact List.Forall₂.cons ⟨rfl, rfl⟩ ((ih.2) e (by rw [hrest]))

lemma create_booking_ok_shape {facs : List String} {store st : List Booking}
    {nextId bid : Nat} {p : CreateBooking}
    (h : create_booking facs store nextId p = .ok (st, bid)) :
    st = store ++ [newBooking nextId p] := by
  rw [create_booking] at h
  by_cases h1 : ¬ facs.contains p.facility_code
  · rw [if_pos h1] at h; simp at h
  · rw [if_neg h1] at h
    by_cases h2 : pyStrGe p.start_time p.end_time
    · rw [if_pos h2] at h; simp at h
    · rw [if_neg h2] at h
      cases hcc : checkConflicts p.start_time p.end_time
          (store.filter (matchesKey p.facility_code p.date)) with
      | error e => rw [hcc] at h; simp at h
      | ok u =>
        rw [hcc] at h
        simp only [Except.ok.injEq, Prod.mk.injEq] at h
        exact h.1.symm

lemma admin_approve_ok_shape {store st2 : List Booking} {i : Nat} {g : String}
    (h : admin_action store i .approve g = .ok st2) :
    st2 = store.map (fun b => if b.id == i then
        { b with status := "approved", access_code := some g } else b)
      ∧ ∃ b0 ∈ store, b0.id = i := by
  rw [admin_action] at h
  cases hf : store.find? (fun b => b.id == i) with
  | none => rw [hf] at h; simp at h
  | some b0 =>
    rw [hf] at h
    simp only [Except.ok.injEq] at h
    exact ⟨h.symm, b0, List.mem_of_find?_eq_some hf,
      by simpa using List.find?_some hf⟩

lemma admin_reject_ok_shape {store st2 : List Booking} {i : Nat} {g : String}
    (h : admin_action store i .reject g = .ok st2) :
    st2 = store.map (fun b => if b.id == i then
        { b with status := "rejected" } else b) := by
  rw [admin_action] at h
  cases hf : store.find? (fun b => b.id == i) with
  | none => rw [hf] at h; simp at h
  | some b0 =>
    rw [hf] at h
    simp only [Except.ok.injEq] at h
    exact h.symm

lemma check_in_ok_shape {store st2 : List Booking} {i now : Nat} {code : String}
    (h : check_in store i code now = .ok st2) :
    st2 = store.map (fun b => if b.id == i then
        { b with checked_in_at := some now } else b) := by
  rw [check_in] at h
  cases hf : store.find? (fun b => b.id == i) with
  | none => rw [hf] at h; simp at h
  | some b0 =>
    rw [hf] at h
    dsimp only at h
    by_cases h1 : b0.status ≠ "approved"
    · rw [if_pos h1] at h; simp at h
    · rw [if_neg h1] at h
      by_cases h2 : b0.access_code ≠ some code
      · rw [if_pos h2] at h; simp at h
      · rw [if_neg h2] at h
        simp only [Except.ok.injEq] at h
        exact h.symm

/-- Ids hit by a successful admin-approve somewhere along the trace
(each approve tested against the store current at its point — an approve
of a nonexistent id is a 404 no-op and does not count). -/
def everApprovedB (facs : List String) : SysState → List Op → Nat → Bool
  | _, [], _ => false
  | s, op :: rest, i =>
    (match op with
     | .admin j .approve _ => j == i && s.store.any (fun b => b.id == j)
     | _ => false)
    || everApprovedB facs (stepOp facs s op) rest i

/-- Generalized form of the amended I3: starting from a store whose
codes agree with `codes0` (false at and above `nextId`), after any trace
a booking's access code is set iff it was set initially or a successful
approve hit its id along the trace. -/
lemma code_iff_everApproved (facs : List String) : ∀ (l : List Op) (s : SysState)
    (codes0 : Nat → Bool),
    (∀ b ∈ s.store, b.id < s.nextId) →
    (∀ i, s.nextId ≤ i → codes0 i = false) →
    (∀ b ∈ s.store, b.access_code.isSome = codes0 b.id) →
    ∀ b ∈ (runOps facs s l).store,
      b.access_code.isSome = (codes0 b.id || everApprovedB facs s l b.id) := by
  intro l
  induction l with
  | nil =>
    intro s codes0 _ _ hcode b hb
    simp only [runOps] at hb
    simp only [everApprovedB, Bool.or_false]
    exact hcode b hb
  | cons op rest ih =>
    intro s codes0 hlt hfresh hcode
    cases op with
    | create p =>
      simp only [runOps, everApprovedB, stepOp]
      cases hc : create_booking facs s.store s.nextId p with
      | error e =>
        dsimp only
        intro b hb
        simp only [Bool.false_or]
        exact ih s codes0 hlt hfresh hcode b hb
      | ok v =>
        cases v with
        | mk st bid =>
          dsimp only
          have hshape := create_booking_ok_shape hc
          subst hshape
          intro b hb
          simp only [Bool.false_or]
          refine ih ⟨s.store ++ [newBooking s.nextId p], s.nextId + 1⟩ codes0
            ?_ ?_ ?_ b hb
          · intro x hx
            rcases List.mem_append.mp hx with hx | hx
            · exact Nat.lt_trans (hlt x hx) (Nat.lt_succ_self _)
            · have hxe : x = newBooking s.nextId p := by simpa using hx
              rw [hxe]
              simp [newBooking]
          · intro i hi
            dsimp only at hi
            exact hfresh i (by omega)
          · intro x hx
            rcases List.mem_append.mp hx with hx | hx
            · exact hcode x hx
            · have hxe : x = newBooking s.nextId p := by simpa using hx
              rw [hxe]
              simp only [newBooking]
              rw [hfresh s.nextId (Nat.le_refl _)]
              rfl
    | admin j a g =>
      cases a with
      | approve =>
        simp only [runOps, everApprovedB, stepOp]
        cases hc : admin_action s.store j .approve g with
        | error e =>
          dsimp only
          have hany : s.store.any (fun b => b.id == j) = false := by
            rw [admin_action] at hc
            cases hf : s.store.find? (fun b => b.id == j) with
            | some b0 => rw [hf] at hc; simp at hc
            | none =>
              rw [List.any_eq_false]
              intro x hx
              have h4 := List.find?_eq_none.mp hf x hx
              simpa using h4
          intro b hb
          rw [hany]
          simp only [Bool.and_false, Bool.false_or]
          exact ih s codes0 hlt hfresh hcode b hb
        | ok st2 =>
          dsimp only
          obtain ⟨hshape, b0, hb0, hb0j⟩ := admin_approve_ok_shape hc
          subst hshape
          have hjlt : j < s.nextId := hb0j ▸ hlt b0 hb0
          have hany : s.store.any (fun b => b.id == j) = true :=
            List.any_eq_true.mpr ⟨b0, hb0, by simp [hb0j]⟩
          have hlt' : ∀ x ∈ s.store.map (fun y => if y.id == j then
              { y with status := "approved", access_code := some g } else y),
              x.id < s.nextId := by
            intro x hx
            obtain ⟨y, hy, hxy⟩ := List.mem_map.mp hx
            have hxid : x.id = y.id := by
              rw [← hxy]
              by_cases hyj : (y.id == j) = true
              · simp [hyj]
              · simp [hyj]
            rw [hxid]
            exact hlt y hy
          have hfresh' : ∀ i, s.nextId ≤ i → (codes0 i || (j == i)) = false := by
            intro i hi
            rw [hfresh i hi, Bool.false_or]
            exact beq_eq_false_iff_ne.mpr (by omega)
          have hcode' : ∀ x ∈ s.store.map (fun y => if y.id == j then
              { y with status := "approved", access_code := some g } else y),
              x.access_code.isSome = (codes0 x.id || (j == x.id)) := by
            intro x hx
            obtain ⟨y, hy, hxy⟩ := List.mem_map.mp hx
            by_cases hyj : (y.id == j) = true
            · rw [← hxy, if_pos hyj]
              have hyid : y.id = j := by simpa using hyj
              simp [hyid]
            · rw [← hxy, if_neg hyj]
              rw [hcode y hy]
              have hyid : y.id ≠ j := by simpa using hyj
              have hne : (j == y.id) = false :=
                beq_eq_false_iff_ne.mpr (fun he => hyid he.symm)
              simp [hne]
          intro b hb
          have hih := ih ⟨s.store.map (fun y => if y.id == j then
              { y with status := "approved", access_code := some g } else y),
            s.nextId⟩ (fun k => codes0 k || (j == k)) hlt' hfresh' hcode' b hb
          rw [hih, hany]
          simp [Bool.or_assoc]
      | reject =>
        simp only [runOps, everApprovedB, stepOp]
        cases hc : admin_action s.store j .reject g with
        | error e =>
          dsimp only
          intro b hb
          simp only [Bool.false_or]
          exact ih s codes0 hlt hfresh hcode b hb
        | ok st2 =>
          dsimp only
          have hshape := admin_reject_ok_shape hc
          subst hshape
          intro b hb
          simp only [Bool.false_or]
          refine ih ⟨s.store.map (fun y => if y.id == j then
              { y with status := "rejected" } else y), s.nextId⟩ codes0
            ?_ hfresh ?_ b hb
          · intro x hx
            obtain ⟨y, hy, hxy⟩ := List.mem_map.mp hx
            have hxid : x.id = y.id := by
              rw [← hxy]
              by_cases hyj : (y.id == j) = true
              · simp [hyj]
              · simp [hyj]
            rw [hxid]
            exact hlt y hy
          · intro x hx
            obtain ⟨y, hy, hxy⟩ := List.mem_map.mp hx
            by_cases hyj : (y.id == j) = true
            · rw [← hxy, if_pos hyj]
              simpa using hcode y hy
            · rw [← hxy, if_neg hyj]
              exact hcode y hy
    | checkin j code now =>
      simp only [runOps, everApprovedB, stepOp]
      cases hc : check_in s.store j code now with
      | error e =>
        dsimp only
        intro b hb
        simp only [Bool.false_or]
        exact ih s codes0 hlt hfresh hcode b hb
      | ok st2 =>
        dsimp only
        have hshape := check_in_ok_shape hc
        subst hshape
        intro b hb
        simp only [Bool.false_or]
        refine ih ⟨s.store.map (fun y => if y.id == j then
            { y with checked_in_at := some now } else y), s.nextId⟩ codes0
          ?_ hfresh ?_ b hb
        · intro x hx
          obtain ⟨y, hy, hxy⟩ := List.mem_map.mp hx
          have hxid : x.id = y.id := by
            rw [← hxy]
            by_cases hyj : (y.id == j) = true
            · simp [hyj]
            · simp [hyj]
          rw [hxid]
          exact hlt y hy
        · intro x hx
          obtain ⟨y, hy, hxy⟩ := List.mem_map.mp hx
          by_cases hyj : (y.id == j) = true
          · rw [← hxy, if_pos hyj]
            simpa using hcode y hy
          · rw [← hxy, if_neg hyj]
            exact hcode y hy
    | sweep g t n =>
      simp only [runOps, everApprovedB, stepOp]
      cases hc : sweep_noshows g t n s.store with
      | ok v =>
        cases v with
        | mk st c =>
          dsimp only
          have hkeep := (sweep_keepsIdCode g t n s.store).1 st c hc
          intro b hb
          simp only [Bool.false_or]
          refine ih ⟨st, s.nextId⟩ codes0 ?_ hfresh ?_ b hb
          · intro x hx
            obtain ⟨y, hy, hk⟩ := forall2_mem_right hkeep x hx
            rw [hk.1]
            exact hlt y hy
          · intro x hx
            obtain ⟨y, hy, hk⟩ := forall2_mem_right hkeep x hx
            rw [hk.2, hk.1]
            exact hcode y hy
      | error st =>
        dsimp only
        have hkeep := (sweep_keepsIdCode g t n s.store).2 st hc
        intro b hb
        simp only [Bool.false_or]
        refine ih ⟨st, s.nextId⟩ codes0 ?_ hfresh ?_ b hb
        · intro x hx
          obtain ⟨y, hy, hk⟩ := forall2_mem_right hkeep x hx
          rw [hk.1]
          exact hlt y hy
        · intro x hx
          obtain ⟨y, hy, hk⟩ := forall2_mem_right hkeep x hx
          rw [hk.2, hk.1]
          exact hcode y hy

/-- C6 amended: after any sequence of operations from the empty store, a
booking's `access_code` is set iff some successful admin-approve hit its
id during the run — the code is issued exactly on approval and persists
through every later transition, including rejection and no_show (so
"approved or a terminal state reached from approved" must be read as
"ever approved", not as the status set {approved, no_show}).  In
particular a never-approved booking (e.g. rejected from pending) has no
code, and approving a pending booking sets one. -/
theorem invariant_I3_c6_amended (facs : List String) (ops : List Op) :
    ∀ b ∈ (runOps facs initState ops).store,
      b.access_code.isSome = everApprovedB facs initState ops b.id := by
  intro b hb
  have h := code_iff_everApproved facs ops initState (fun _ => false)
    (by intro x hx; simp [initState] at hx)
    (fun _ _ => rfl)
    (by intro x hx; simp [initState] at hx) b hb
  simpa using h

/-- Witness for the amended C6: after create-then-approve, the booking
(id 0, code issued) satisfies the ever-approved characterization, and
its code is indeed set. -/
theorem invariant_I3_c6_amended_witness :
    (Option.some "A1B2C3").isSome = everApprovedB ["MR-1"] initState
      [.create { facility_code := "MR-1", user_name := "u", user_email := "u@x",
                 date := "2024-06-01", start_time := "09:00", end_time := "10:00" },
       .admin 0 .approve "A1B2C3"] 0 := by
  have h := invariant_I3_c6_amended ["MR-1"]
    [.create { facility_code := "MR-1", user_name := "u", user_email := "u@x",
               date := "2024-06-01", start_time := "09:00", end_time := "10:00" },
     .admin 0 .approve "A1B2C3"]
    { id := 0, facility_code := "MR-1", user_name := "u", user_email := "u@x",
      date := "2024-06-01", start_time := "09:00", end_time := "10:00",
      status := "approved", access_code := some "A1B2C3" } (by decide)
  simpa using h
